import Mathlib

/-!
A verification development for the dungeon simulation (OOP lab 7).

Shallow embedding of `game_constants.h`, `npc.h` / `npc.cpp`, `visitor.h`,
`thread_safe_queue.h` and `game_engine.h` / `game_engine.cpp`.

Conventions of the embedding.

* A C++ `int` is a Lean `Int`; every `+` and `-` of the source that is not
  between two literals goes through `wrapInt` (32-bit two's complement).
* A `std::shared_ptr<NPC>` is an address (`Nat`); the objects live in
  `GameEngine.heap`.
* `std::mt19937` is a stream of raw outputs with a cursor; one call of a
  `std::uniform_int_distribution<int>(a, b)` consumes one raw output and
  reduces it into `[a, b]`.
* `std::map<std::pair<int,int>, std::shared_ptr<NPC>>` is a partial function
  from cells to addresses, with `find`, `erase` and `assign` (`operator[] =`).
* The workers are embedded as sequential steps (one loop body at a time).
-/

namespace DungeonSim

/-! ## game_constants.h -/

def MAP_WIDTH : Int := 100
def MAP_HEIGHT : Int := 100
def KILL_DISTANCE : Int := 5
def MOVE_DISTANCE : Int := 2
def GAME_DURATION_SECONDS : Int := 30
def INITIAL_NPC_COUNT : Nat := 50

/-! ## C++ `int` -/

def INT_MIN : Int := -2147483648
def INT_MAX : Int := 2147483647

/-- The value of a 32-bit two's complement `int` computation whose
mathematical result is `v`. -/
def wrapInt (v : Int) : Int := (v + 2147483648) % 4294967296 - 2147483648

/-- The values an `int` variable can hold. -/
def isInt (v : Int) : Prop := INT_MIN ≤ v ∧ v ≤ INT_MAX

instance (v : Int) : Decidable (isInt v) := by
  unfold isInt; exact inferInstance

/-! ## `<random>` -/

/-- The generator `std::mt19937`: the stream of its raw outputs and the number
of outputs consumed so far. -/
structure Mt19937 where
  out : Nat → Nat
  pos : Nat

/-- One call `dist(engine)` of a `std::uniform_int_distribution<int> dist(a, b)`:
the next raw output reduced into `[a, b]`, and the advanced generator. -/
def uniform_int_distribution (a b : Int) (g : Mt19937) : Int × Mt19937 :=
  (a + ((g.out g.pos : Nat) : Int) % (b - a + 1), { g with pos := g.pos + 1 })

/-! ## npc.h / npc.cpp -/

inductive NPCType where
  | Bear
  | Werewolf
  | Rogue
  deriving DecidableEq, Repr

/-- The fields of `class NPC`. `randomEngine` records whether the pointer
`std::mt19937* randomEngine` is non-null; it then points to the generator
passed along explicitly. -/
structure NPC where
  type : NPCType
  x : Int
  y : Int
  name : String
  alive : Bool
  randomEngine : Bool
  deriving DecidableEq

namespace NPC

/-- The constructor `NPC::NPC(type, x, y, name)`. -/
def new (type : NPCType) (x y : Int) (name : String) : NPC :=
  { type := type, x := x, y := y, name := name, alive := true, randomEngine := false }

def getType (n : NPC) : NPCType := n.type

def getX (n : NPC) : Int := n.x

def getY (n : NPC) : Int := n.y

def setPosition (n : NPC) (newX newY : Int) : NPC :=
  { n with
    x := max 0 (min (MAP_WIDTH - 1) newX)
    y := max 0 (min (MAP_HEIGHT - 1) newY) }

def getName (n : NPC) : String := n.name

def isAlive (n : NPC) : Bool := n.alive

def markDead (n : NPC) : NPC := { n with alive := false }

/-- The method `NPC::move(maxX, maxY)`; `g` is the generator `*randomEngine`. -/
def move (n : NPC) (maxX maxY : Int) (g : Mt19937) : NPC × Mt19937 :=
  if !n.alive || !n.randomEngine then (n, g)
  else
    let d1 := uniform_int_distribution (-MOVE_DISTANCE) MOVE_DISTANCE g
    let newX := wrapInt (n.x + d1.1)
    let d2 := uniform_int_distribution (-MOVE_DISTANCE) MOVE_DISTANCE d1.2
    let newY := wrapInt (n.y + d2.1)
    let newX := max 0 (min (wrapInt (maxX - 1)) newX)
    let newY := max 0 (min (wrapInt (maxY - 1)) newY)
    (n.setPosition newX newY, d2.2)

/-- The method `NPC::rollDice()`; it assigns no field of the object, so only the
roll and the generator are returned. -/
def rollDice (n : NPC) (g : Mt19937) : Int × Mt19937 :=
  if !n.randomEngine then (0, g)
  else uniform_int_distribution 1 6 g

/-- The method `NPC::tryKill(other)`; it assigns no field of either object. -/
def tryKill (n other : NPC) (g : Mt19937) : Bool × Mt19937 :=
  if !n.randomEngine then (false, g)
  else
    let attack := n.rollDice g
    let defense := other.rollDice attack.2
    (decide (attack.1 > defense.1), defense.2)

def setRandomEngine (n : NPC) : NPC := { n with randomEngine := true }

end NPC

/-- The constructor `Bear::Bear(x, y, name)`. -/
def Bear.new (x y : Int) (name : String) : NPC := NPC.new NPCType.Bear x y name

/-- The constructor `Werewolf::Werewolf(x, y, name)`. -/
def Werewolf.new (x y : Int) (name : String) : NPC := NPC.new NPCType.Werewolf x y name

/-- The constructor `Rogue::Rogue(x, y, name)`. -/
def Rogue.new (x y : Int) (name : String) : NPC := NPC.new NPCType.Rogue x y name

/-! ## visitor.h -/

/-- Modelled from the spec: `class Observable` of observer.h, which is not among
the sources; only the handles of its registered observers are kept. -/
structure Observable where
  observers : List Nat

/-- The fields of `class NPCVisitor`. -/
structure NPCVisitor where
  range : Int
  observable : Observable

/-- Modelled from the spec: the body of `NPCVisitor::canKill` (visitor.cpp is not
among the sources, visitor.h only declares it). The kill rule is a pure function
of the two kinds encoding a 3-cycle: "A beats B, B beats C, C beats A", all
reverse and self pairs false; the test `VisitorTest.CanKillRules` fixes the
cycle as Werewolf beats Rogue, Rogue beats Bear, Bear beats Werewolf. -/
def NPCVisitor.canKill (_v : NPCVisitor) (killer victim : NPCType) : Bool :=
  match killer, victim with
  | NPCType.Bear, NPCType.Werewolf => true
  | NPCType.Werewolf, NPCType.Rogue => true
  | NPCType.Rogue, NPCType.Bear => true
  | _, _ => false

/-- Modelled from the spec: `NPCFactory::create` of factory.h, which is not among
the sources: "CreateEntity(kind, x, y, name)" builds the entity of the given
kind at the given coordinates with the given name. -/
def NPCFactory.create (type : NPCType) (x y : Int) (name : String) : NPC :=
  match type with
  | NPCType.Bear => Bear.new x y name
  | NPCType.Werewolf => Werewolf.new x y name
  | NPCType.Rogue => Rogue.new x y name

/-! ## thread_safe_queue.h -/

/-- The class `ThreadSafeQueue`: the `std::queue` it guards, front first. -/
structure ThreadSafeQueue (α : Type) where
  queue_ : List α

namespace ThreadSafeQueue

variable {α : Type}

def push (q : ThreadSafeQueue α) (task : α) : ThreadSafeQueue α :=
  { queue_ := q.queue_ ++ [task] }

/-- The method `tryPop(Task& task)`: the returned flag, the output argument after
the call, and the queue after the call. -/
def tryPop (q : ThreadSafeQueue α) (task : α) : Bool × α × ThreadSafeQueue α :=
  match q.queue_ with
  | [] => (false, task, q)
  | front :: rest => (true, front, { queue_ := rest })

def empty (q : ThreadSafeQueue α) : Bool := q.queue_.isEmpty

end ThreadSafeQueue

/-! ## game_engine.h / game_engine.cpp -/

/-- A cell `{x, y}`, the key type of `positionMap`. -/
abbrev Cell := Int × Int

/-- The type of `positionMap`: a `std::map` from cells to NPC addresses. -/
def PositionMap := Cell → Option Nat

namespace PositionMap

def emptyMap : PositionMap := fun _ => none

/-- The lookup `m.find(k)`: `none` stands for `m.end()`. -/
def find (m : PositionMap) (k : Cell) : Option Nat := m k

/-- The call `m.erase(it)` for the entry with key `k`. -/
def erase (m : PositionMap) (k : Cell) : PositionMap :=
  fun c => if c = k then none else m c

/-- The assignment `m[k] = v`. -/
def assign (m : PositionMap) (k : Cell) (v : Nat) : PositionMap :=
  fun c => if c = k then some v else m c

/-- The loop over all entries that erases every entry whose value is `v`. -/
def eraseValue (m : PositionMap) (v : Nat) : PositionMap :=
  fun c => match m c with
    | some p => if p = v then none else some p
    | none => none

end PositionMap

/-- The closure pushed on the combat queue: it captures `attacker` and
`defender` and calls `processCombat(attacker, defender)` when run. -/
structure CombatTask where
  attacker : Nat
  defender : Nat
  deriving DecidableEq, Repr

/-- The state of a `GameEngine`. `heap` holds the NPC objects the shared pointers
refer to, `cout` the lines written to the console, and the three worker fields
record whether the thread is joinable. -/
structure GameEngine where
  heap : Nat → NPC
  npcs : List Nat
  combatQueue : ThreadSafeQueue CombatTask
  positionMap : PositionMap
  running : Bool
  cout : List String
  movementWorker : Bool
  combatWorker : Bool
  printWorker : Bool
  randomEngine : Mt19937

/-- The kill rule used by the engine code stands for `visitor.canKill` of a
locally built `NPCVisitor`; its body is not among the sources, so the engine
functions take it as a parameter. -/
abbrev KillRule := NPCType → NPCType → Bool

namespace GameEngine

def updatePosition (g : GameEngine) (npc : Nat) (oldX oldY newX newY : Int) : GameEngine :=
  let m1 :=
    match g.positionMap.find (oldX, oldY) with
    | some p => if p = npc then g.positionMap.erase (oldX, oldY) else g.positionMap
    | none => g.positionMap
  { g with positionMap := m1.assign (newX, newY) npc }

def removeDeadNPC (g : GameEngine) (npc : Nat) : GameEngine :=
  { g with positionMap := g.positionMap.eraseValue npc }

/-- The values taken by `dx` and by `dy` in the neighbour scan, in loop order:
from `-KILL_DISTANCE` up to and including `KILL_DISTANCE`. -/
def scanOffsets : List Int :=
  (List.range (Int.toNat (KILL_DISTANCE - -KILL_DISTANCE + 1))).map
    (fun (i : Nat) => -KILL_DISTANCE + (i : Int))

/-- The body of the two nested loops of the neighbour scan for one `(dx, dy)`:
the neighbour pushed, if any. -/
def scanCell (g : GameEngine) (newX newY dx dy : Int) : Option Nat :=
  if dx = 0 ∧ dy = 0 then none
  else
    let checkX := wrapInt (newX + dx)
    let checkY := wrapInt (newY + dy)
    if checkX ≥ 0 ∧ checkX < MAP_WIDTH ∧ checkY ≥ 0 ∧ checkY < MAP_HEIGHT then
      match g.positionMap.find (checkX, checkY) with
      | some p => if (g.heap p).isAlive then some p else none
      | none => none
    else none

/-- The neighbour scan of `movementThread`: the vector `neighbors` it builds. -/
def scanNeighbors (g : GameEngine) (newX newY : Int) : List Nat :=
  scanOffsets.flatMap (fun dx => scanOffsets.filterMap (fun dy => g.scanCell newX newY dx dy))

/-- The loop of `movementThread` that creates the combat tasks. -/
def enqueueCombat (canKill : KillRule) (g : GameEngine) (npc : Nat) (neighbors : List Nat) :
    GameEngine :=
  neighbors.foldl (fun acc neighbor =>
    if canKill (acc.heap npc).getType (acc.heap neighbor).getType ||
        canKill (acc.heap neighbor).getType (acc.heap npc).getType then
      { acc with combatQueue := acc.combatQueue.push { attacker := npc, defender := neighbor } }
    else acc) g

/-- The body of the `for` loop of `movementThread` for the registry element `npc`. -/
def movementStep (canKill : KillRule) (g : GameEngine) (npc : Nat) : GameEngine :=
  if !(g.heap npc).isAlive then g
  else
    let oldX := (g.heap npc).getX
    let oldY := (g.heap npc).getY
    let moved := (g.heap npc).move MAP_WIDTH MAP_HEIGHT g.randomEngine
    let g1 := { g with heap := Function.update g.heap npc moved.1, randomEngine := moved.2 }
    let newX := (g1.heap npc).getX
    let newY := (g1.heap npc).getY
    let g2 := g1.updatePosition npc oldX oldY newX newY
    let neighbors := g2.scanNeighbors newX newY
    enqueueCombat canKill g2 npc neighbors

/-- One iteration of the `while (running)` loop of `movementThread`, up to the
sleep: the `for` loop over the registry. -/
def movementTick (canKill : KillRule) (g : GameEngine) : GameEngine :=
  g.npcs.foldl (fun acc npc => if acc.running then movementStep canKill acc npc else acc) g

def processCombat (canKill : KillRule) (g : GameEngine) (attacker defender : Nat) : GameEngine :=
  if !(g.heap attacker).isAlive || !(g.heap defender).isAlive then g
  else
    let r1 :=
      if canKill (g.heap attacker).getType (g.heap defender).getType then
        (g.heap attacker).tryKill (g.heap defender) g.randomEngine
      else (false, g.randomEngine)
    let attackerKillsDefender := r1.1
    let r2 :=
      if canKill (g.heap defender).getType (g.heap attacker).getType then
        (g.heap defender).tryKill (g.heap attacker) r1.2
      else (false, r1.2)
    let defenderKillsAttacker := r2.1
    let g0 := { g with randomEngine := r2.2 }
    if attackerKillsDefender && defenderKillsAttacker then
      let g1 := { g0 with cout := g0.cout ++ ["MUTUAL KILL: " ++ (g0.heap attacker).getName ++
        " and " ++ (g0.heap defender).getName ++ " killed each other!"] }
      let g2 := { g1 with heap := Function.update g1.heap defender (g1.heap defender).markDead }
      let g3 := { g2 with heap := Function.update g2.heap attacker (g2.heap attacker).markDead }
      (g3.removeDeadNPC defender).removeDeadNPC attacker
    else if attackerKillsDefender then
      let g1 := { g0 with cout := g0.cout ++ [(g0.heap attacker).getName ++ " killed " ++
        (g0.heap defender).getName] }
      let g2 := { g1 with heap := Function.update g1.heap defender (g1.heap defender).markDead }
      g2.removeDeadNPC defender
    else if defenderKillsAttacker then
      let g1 := { g0 with cout := g0.cout ++ [(g0.heap defender).getName ++ " killed " ++
        (g0.heap attacker).getName] }
      let g2 := { g1 with heap := Function.update g1.heap attacker (g1.heap attacker).markDead }
      g2.removeDeadNPC attacker
    else g0

/-- One iteration of the `while (running)` loop of `combatThread`, up to the
sleep; `task` is the freshly declared local `ThreadSafeQueue::Task task`. -/
def combatStep (canKill : KillRule) (g : GameEngine) (task : CombatTask) : GameEngine :=
  let r := g.combatQueue.tryPop task
  if r.1 then processCombat canKill { g with combatQueue := r.2.2 } r.2.1.attacker r.2.1.defender
  else g

/-- The `for` loop of `initializeNPCs`: `count` iterations starting at index `i`.
The object made in iteration `i` is stored at address `i`. -/
def initializeLoop : Nat → Nat → GameEngine → GameEngine
  | 0, _, g => g
  | count + 1, i, g =>
    let dx := uniform_int_distribution 0 (MAP_WIDTH - 1) g.randomEngine
    let dy := uniform_int_distribution 0 (MAP_WIDTH - 1) dx.2
    let dt := uniform_int_distribution 0 2 dy.2
    let x := dx.1
    let y := dy.1
    let type :=
      if dt.1 = 0 then NPCType.Bear
      else if dt.1 = 1 then NPCType.Werewolf
      else NPCType.Rogue
    let name := "NPC_" ++ toString i
    let npc := (NPCFactory.create type x y name).setRandomEngine
    initializeLoop count (i + 1)
      { g with
        heap := Function.update g.heap i npc
        randomEngine := dt.2
        positionMap := g.positionMap.assign (x, y) i
        npcs := g.npcs ++ [i] }

def initializeNPCs (g : GameEngine) : GameEngine :=
  initializeLoop INITIAL_NPC_COUNT 0 g

/-- The constructor `GameEngine::GameEngine()`: `seed` is the generator state
produced by `std::random_device`, `memory` the content of the free store. -/
def new (seed : Mt19937) (memory : Nat → NPC) : GameEngine :=
  initializeNPCs
    { heap := memory
      npcs := []
      combatQueue := { queue_ := [] }
      positionMap := PositionMap.emptyMap
      running := false
      cout := []
      movementWorker := false
      combatWorker := false
      printWorker := false
      randomEngine := seed }

/-- What a worker thread does to the engine from the moment `running` is
cleared until the thread ends: it finishes its current loop body and exits. -/
abbrev WorkerRest := GameEngine → GameEngine

/-- The call `worker.join()` on a joinable worker: the caller waits while the
worker finishes (`rest`). No worker writes `running` or a thread handle, so these
four fields are the same after the wait as before. -/
def joinWorker (g : GameEngine) (rest : WorkerRest) : GameEngine :=
  { rest g with
    running := g.running
    movementWorker := g.movementWorker
    combatWorker := g.combatWorker
    printWorker := g.printWorker }

/-- The method `GameEngine::stop()`; the three arguments say what each worker
still does while it is being joined. After `join()` a thread is not joinable. -/
def stop (g : GameEngine) (movementRest combatRest printRest : WorkerRest) : GameEngine :=
  let g0 := { g with running := false }
  let g1 := if g0.movementWorker then { g0.joinWorker movementRest with movementWorker := false }
    else g0
  let g2 := if g1.combatWorker then { g1.joinWorker combatRest with combatWorker := false }
    else g1
  let g3 := if g2.printWorker then { g2.joinWorker printRest with printWorker := false }
    else g2
  g3

/-- The destructor `GameEngine::~GameEngine()`, which calls `stop()`. -/
def destructor (g : GameEngine) (movementRest combatRest printRest : WorkerRest) : GameEngine :=
  g.stop movementRest combatRest printRest

/-- The `switch` of `printMapThread` that picks the symbol of a kind. -/
def symbolOf (type : NPCType) : Char :=
  match type with
  | NPCType.Bear => 'B'
  | NPCType.Werewolf => 'W'
  | NPCType.Rogue => 'R'

/-- The body of the `for` loop of `printMapThread` for the registry element
`npc`; `map` is the vector of rows, `map[y][x] = symbol` is the nested `set`. -/
def renderNPC (heap : Nat → NPC) (map : List (List Char)) (npc : Nat) : List (List Char) :=
  if (heap npc).isAlive then
    let x := (heap npc).getX
    let y := (heap npc).getY
    let symbol := symbolOf (heap npc).getType
    if x ≥ 0 ∧ x < MAP_WIDTH ∧ y ≥ 0 ∧ y < MAP_HEIGHT then
      map.set y.toNat ((map.getD y.toNat []).set x.toNat symbol)
    else map
  else map

/-- The grid `map` built by `printMapThread`: `MAP_HEIGHT` rows of `MAP_WIDTH`
dots, then the loop over the registry. -/
def buildMap (g : GameEngine) : List (List Char) :=
  g.npcs.foldl (renderNPC g.heap)
    (List.replicate MAP_HEIGHT.toNat (List.replicate MAP_WIDTH.toNat '.'))

/-- One iteration of the `while (running)` loop of `printMapThread`, up to the
sleep: the header (after an empty line), the rows of the grid and the legend are
written to the console. -/
def printMapStep (g : GameEngine) : GameEngine :=
  { g with
    cout := g.cout ++ ["", "=== CURRENT MAP ==="] ++ (buildMap g).map String.mk ++
      ["Legend: B=Bear, W=Werewolf, R=Rogue, .=empty"] }

end GameEngine

/-! ## Definitions used to state the properties -/

/-- The tasks created by the enqueue loop for the list `neighbors`. -/
def enqueuedTasks (canKill : KillRule) (heap : Nat → NPC) (npc : Nat) (neighbors : List Nat) :
    List CombatTask :=
  (neighbors.filter (fun nb =>
    canKill (heap npc).type (heap nb).type || canKill (heap nb).type (heap npc).type)).map
    (fun nb => { attacker := npc, defender := nb })

/-- A sequence of combat resolutions: the tasks are run one after the other. -/
def resolveAll (canKill : KillRule) (g : GameEngine) (tasks : List CombatTask) : GameEngine :=
  tasks.foldl (fun acc t => GameEngine.processCombat canKill acc t.attacker t.defender) g

/-- The Chebyshev distance between two cells. -/
def chebyshev (a b : Cell) : Int := max |a.1 - b.1| |a.2 - b.2|

/-- The cell lies inside the `MAP_WIDTH × MAP_HEIGHT` map. -/
def inMap (c : Cell) : Prop := 0 ≤ c.1 ∧ c.1 < MAP_WIDTH ∧ 0 ≤ c.2 ∧ c.2 < MAP_HEIGHT

instance (c : Cell) : Decidable (inMap c) := by
  unfold inMap; exact inferInstance

/-- The cell where the entity at address `p` currently stands. -/
def cellOf (heap : Nat → NPC) (p : Nat) : Cell := ((heap p).getX, (heap p).getY)

/-- The position-index invariant: every entity is referenced by at most one entry
of the index, and the key of an entry is the current cell of the entity it
references. -/
def IndexInvariant (heap : Nat → NPC) (m : PositionMap) : Prop :=
  (∀ (p : Nat) (c1 c2 : Cell), m.find c1 = some p → m.find c2 = some p → c1 = c2) ∧
  (∀ (p : Nat) (c : Cell), m.find c = some p → c = cellOf heap p)

/-- Every key of the index lies inside the map. -/
def KeysInMap (m : PositionMap) : Prop := ∀ (c : Cell) (p : Nat), m.find c = some p → inMap c

/-- A call on a `ThreadSafeQueue`: `push(task)` or `tryPop(out)`. -/
inductive QueueOp (α : Type) where
  | push (task : α)
  | tryPop

/-- A queue together with the history of the calls made on it: the tasks pushed,
in push order, the tasks handed out by the successful `tryPop` calls, in call
order, and the caller's output variable. -/
structure QueueRun (α : Type) where
  queue : ThreadSafeQueue α
  pushed : List α
  popped : List α
  out : α

/-- One call on the queue, recorded in the history. -/
def QueueRun.step {α : Type} (r : QueueRun α) : QueueOp α → QueueRun α
  | QueueOp.push task => { r with queue := r.queue.push task, pushed := r.pushed ++ [task] }
  | QueueOp.tryPop =>
    let res := r.queue.tryPop r.out
    if res.1 then { r with queue := res.2.2, out := res.2.1, popped := r.popped ++ [res.2.1] }
    else { r with queue := res.2.2, out := res.2.1 }

/-- A sequence of calls on a queue that starts empty; `out` is the initial value
of the caller's output variable. -/
def QueueRun.run {α : Type} (ops : List (QueueOp α)) (out : α) : QueueRun α :=
  ops.foldl QueueRun.step { queue := { queue_ := [] }, pushed := [], popped := [], out := out }

/-- The tasks pushed by a sequence of calls, in call order. -/
def pushedTasks {α : Type} (ops : List (QueueOp α)) : List α :=
  ops.filterMap (fun op => match op with
    | QueueOp.push task => some task
    | QueueOp.tryPop => none)

/-- The character of the grid `map` at column `x` of row `y`, if there is one. -/
def cellAt (map : List (List Char)) (x y : Nat) : Option Char :=
  match map[y]? with
  | some row => row[x]?
  | none => none

/-- The elements of the registry that are alive and stand on the cell `(x, y)`,
in registry order. -/
def liveAt (g : GameEngine) (x y : Int) : List Nat :=
  g.npcs.filter (fun p => (g.heap p).isAlive && decide ((g.heap p).getX = x ∧ (g.heap p).getY = y))

/-- The number of directions of combat the kill rule permits between two kinds. -/
def permittedDirections (canKill : KillRule) (a d : NPCType) : Nat :=
  (if canKill a d then 1 else 0) + (if canKill d a then 1 else 0)

/-- The kill rule the engine uses: `visitor.canKill` of the visitor built as
`NPCVisitor visitor(KILL_DISTANCE, observable)` with one console observer. -/
def engineKillRule : KillRule :=
  fun killer victim =>
    (NPCVisitor.mk KILL_DISTANCE { observers := [0] }).canKill killer victim

/-- A small heap: a live bear at `(10, 10)`, a live werewolf at `(11, 11)`, and
dead rogues at `(50, 50)` everywhere else. -/
def sampleHeap : Nat → NPC :=
  fun p =>
    if p = 0 then (Bear.new 10 10 "bear").setRandomEngine
    else if p = 1 then (Werewolf.new 11 11 "wolf").setRandomEngine
    else (Rogue.new 50 50 "rogue").setRandomEngine.markDead

/-- A small index: the bear and the werewolf of `sampleHeap` at their cells. -/
def sampleMap : PositionMap :=
  fun c => if c = (10, 10) then some 0 else if c = (11, 11) then some 1 else none

/-- A generator whose first raw output is `5` and whose later outputs are `0`:
the first dice roll is `6`, the following ones are `1`. -/
def sampleRng : Mt19937 := { out := fun i => if i = 0 then 5 else 0, pos := 0 }

/-- A small engine state over `sampleHeap` and `sampleMap`. -/
def sampleEngine : GameEngine :=
  { heap := sampleHeap
    npcs := [0, 1, 2]
    combatQueue := { queue_ := [] }
    positionMap := sampleMap
    running := true
    cout := []
    movementWorker := true
    combatWorker := true
    printWorker := true
    randomEngine := sampleRng }

/-- An engine whose index holds two entries for the same live bear at address 0:
one at `(10, 10)` and one at `(11, 10)`. -/
def staleEngine : GameEngine :=
  { sampleEngine with
    positionMap := fun c => if c = (10, 10) then some 0 else if c = (11, 10) then some 0 else none }

/-! ## Frame lemmas -/

section Frame

open GameEngine

theorem wrapInt_of_isInt (v : Int) (h : isInt v) : wrapInt v = v := by
  unfold isInt INT_MIN INT_MAX at h
  unfold wrapInt
  omega

theorem updatePosition_heap (g : GameEngine) (npc : Nat) (a b c d : Int) :
    (g.updatePosition npc a b c d).heap = g.heap := rfl

theorem removeDeadNPC_heap (g : GameEngine) (npc : Nat) :
    (g.removeDeadNPC npc).heap = g.heap := rfl

theorem enqueueCombat_eq (canKill : KillRule) (npc : Nat) (neighbors : List Nat) :
    ∀ g : GameEngine, enqueueCombat canKill g npc neighbors =
      { g with combatQueue :=
          { queue_ := g.combatQueue.queue_ ++ enqueuedTasks canKill g.heap npc neighbors } } := by
  induction neighbors with
  | nil => intro g; simp [enqueueCombat, enqueuedTasks]
  | cons nb rest ih =>
    intro g
    have step := ih
    unfold enqueueCombat at step ⊢
    rw [List.foldl_cons]
    by_cases hc : (canKill (g.heap npc).type (g.heap nb).type ||
        canKill (g.heap nb).type (g.heap npc).type) = true
    · simp only [NPC.getType] at step ⊢
      rw [if_pos hc, step]
      simp [enqueuedTasks, ThreadSafeQueue.push, List.filter_cons, hc]
    · simp only [NPC.getType] at step ⊢
      rw [if_neg hc, step]
      simp [enqueuedTasks, List.filter_cons, hc]

theorem movementStep_heap (canKill : KillRule) (g : GameEngine) (npc e : Nat) :
    (movementStep canKill g npc).heap e =
      if (g.heap npc).alive = true ∧ e = npc
      then ((g.heap npc).move MAP_WIDTH MAP_HEIGHT g.randomEngine).1
      else g.heap e := by
  unfold movementStep
  by_cases ha : (g.heap npc).alive = true
  · simp only [NPC.isAlive, ha, Bool.not_true, Bool.false_eq_true, if_false, enqueueCombat_eq,
      updatePosition_heap, true_and]
    by_cases he : e = npc
    · subst he; simp
    · simp [Function.update_apply, he]
  · simp [NPC.isAlive, ha]

theorem move_alive (n : NPC) (maxX maxY : Int) (g : Mt19937) :
    (n.move maxX maxY g).1.alive = n.alive := by
  unfold NPC.move
  split_ifs <;> rfl

theorem markDead_markDead (n : NPC) : n.markDead.markDead = n.markDead := rfl

theorem processCombat_heap_cases (canKill : KillRule) (g : GameEngine) (a d e : Nat) :
    (processCombat canKill g a d).heap e = g.heap e ∨
      (processCombat canKill g a d).heap e = (g.heap e).markDead := by
  unfold processCombat
  dsimp only [GameEngine.removeDeadNPC]
  split_ifs <;> simp only [Function.update_apply] <;> (try split_ifs) <;>
    simp_all [markDead_markDead]

end Frame

/-! ## Entities: bounds, kill rule, death -/

section Entities

open GameEngine

/-- C1. Bounds after a move: for a live entity with a random source, whatever its
previous coordinates, for `maxX ≥ 1`, `maxY ≥ 1` and every state of the
generator (whatever two offsets are drawn), after `move(maxX, maxY)` the
position satisfies `0 ≤ x < min(maxX, MAP_WIDTH)` and `0 ≤ y < min(maxY, MAP_HEIGHT)`;
in particular the entity moved by a movement step of the engine ends inside the
`MAP_WIDTH × MAP_HEIGHT` map. -/
theorem move_within_bounds (n : NPC) (maxX maxY : Int) (rng : Mt19937)
    (halive : n.alive = true) (hrng : n.randomEngine = true)
    (hX : 1 ≤ maxX) (hY : 1 ≤ maxY) :
    (0 ≤ (n.move maxX maxY rng).1.getX ∧ (n.move maxX maxY rng).1.getX < min maxX MAP_WIDTH ∧
      0 ≤ (n.move maxX maxY rng).1.getY ∧ (n.move maxX maxY rng).1.getY < min maxY MAP_HEIGHT) ∧
    (∀ (canKill : KillRule) (g : GameEngine) (npc : Nat), g.heap npc = n →
      0 ≤ ((movementStep canKill g npc).heap npc).getX ∧
      ((movementStep canKill g npc).heap npc).getX < MAP_WIDTH ∧
      0 ≤ ((movementStep canKill g npc).heap npc).getY ∧
      ((movementStep canKill g npc).heap npc).getY < MAP_HEIGHT) := by
  have key : ∀ (mx my : Int) (r : Mt19937), 1 ≤ mx → 1 ≤ my →
      0 ≤ (n.move mx my r).1.x ∧ (n.move mx my r).1.x < min mx MAP_WIDTH ∧
      0 ≤ (n.move mx my r).1.y ∧ (n.move mx my r).1.y < min my MAP_HEIGHT := by
    intro mx my r h1 h2
    simp only [NPC.move, halive, hrng, Bool.not_true, Bool.or_self, Bool.false_eq_true,
      if_false, NPC.setPosition, MAP_WIDTH, MAP_HEIGHT, wrapInt]
    omega
  refine ⟨key maxX maxY rng hX hY, ?_⟩
  intro canKill g npc hg
  have h := key MAP_WIDTH MAP_HEIGHT g.randomEngine (by decide) (by decide)
  rw [movementStep_heap, hg, if_pos ⟨halive, rfl⟩]
  simpa [NPC.getX, NPC.getY] using h

/-- Witness for C1: a bear at `(99, 0)` that draws the offsets `+2` and `-2`. -/
theorem move_within_bounds_witness :
    0 ≤ ((Bear.new 99 0 "b").setRandomEngine.move 100 100 ⟨fun i => 4 - 4 * i, 0⟩).1.getX ∧
    ((Bear.new 99 0 "b").setRandomEngine.move 100 100 ⟨fun i => 4 - 4 * i, 0⟩).1.getX
      < min 100 MAP_WIDTH ∧
    0 ≤ ((Bear.new 99 0 "b").setRandomEngine.move 100 100 ⟨fun i => 4 - 4 * i, 0⟩).1.getY ∧
    ((Bear.new 99 0 "b").setRandomEngine.move 100 100 ⟨fun i => 4 - 4 * i, 0⟩).1.getY
      < min 100 MAP_HEIGHT :=
  (move_within_bounds (Bear.new 99 0 "b").setRandomEngine 100 100 ⟨fun i => 4 - 4 * i, 0⟩
    rfl rfl (by decide) (by decide)).1

/-- C2. Kill-rule cyclicity: `canKill` is true for exactly the pairs
(Bear, Werewolf), (Werewolf, Rogue), (Rogue, Bear), false for the three reverse
pairs and the three self pairs, and the same for every visitor (whatever its
range and observable). -/
theorem canKill_cycle :
    (∀ v : NPCVisitor,
      v.canKill NPCType.Bear NPCType.Werewolf = true ∧
      v.canKill NPCType.Werewolf NPCType.Rogue = true ∧
      v.canKill NPCType.Rogue NPCType.Bear = true ∧
      v.canKill NPCType.Werewolf NPCType.Bear = false ∧
      v.canKill NPCType.Rogue NPCType.Werewolf = false ∧
      v.canKill NPCType.Bear NPCType.Rogue = false ∧
      v.canKill NPCType.Bear NPCType.Bear = false ∧
      v.canKill NPCType.Werewolf NPCType.Werewolf = false ∧
      v.canKill NPCType.Rogue NPCType.Rogue = false) ∧
    (∀ (v : NPCVisitor) (killer victim : NPCType),
      v.canKill killer victim = true ↔
        (killer, victim) = (NPCType.Bear, NPCType.Werewolf) ∨
        (killer, victim) = (NPCType.Werewolf, NPCType.Rogue) ∨
        (killer, victim) = (NPCType.Rogue, NPCType.Bear)) ∧
    (∀ (v w : NPCVisitor) (killer victim : NPCType),
      v.canKill killer victim = w.canKill killer victim) := by
  refine ⟨fun v => ⟨rfl, rfl, rfl, rfl, rfl, rfl, rfl, rfl, rfl⟩, ?_, ?_⟩
  · intro v killer victim
    cases killer <;> cases victim <;> simp [NPCVisitor.canKill]
  · intro v w killer victim
    rfl

theorem resolveAll_heap_cases (canKill : KillRule) (tasks : List CombatTask) :
    ∀ (g : GameEngine) (e : Nat),
      (resolveAll canKill g tasks).heap e = g.heap e ∨
      (resolveAll canKill g tasks).heap e = (g.heap e).markDead := by
  induction tasks with
  | nil => intro g e; exact Or.inl rfl
  | cons t rest ih =>
    intro g e
    have h1 := processCombat_heap_cases canKill g t.attacker t.defender e
    have h2 := ih (processCombat canKill g t.attacker t.defender) e
    simp only [resolveAll, List.foldl_cons] at h2 ⊢
    rcases h2 with h2 | h2 <;> rcases h1 with h1 | h1 <;> rw [h2, h1] <;>
      simp [markDead_markDead]

theorem movementTick_alive (canKill : KillRule) (l : List Nat) :
    ∀ (g : GameEngine) (e : Nat),
      ((l.foldl (fun acc npc => if acc.running then movementStep canKill acc npc else acc) g).heap
        e).alive = (g.heap e).alive := by
  induction l with
  | nil => intro g e; rfl
  | cons npc rest ih =>
    intro g e
    rw [List.foldl_cons, ih]
    split_ifs
    · rw [movementStep_heap]
      split_ifs with h
      · rw [move_alive, h.2]
      · rfl
    · rfl

/-- C3. Death monotonicity: `markDead` makes `isAlive()` false; for an entity
whose alive flag is false, `setPosition`, `move`, `setRandomEngine` and
`markDead` keep it false (`rollDice` and `tryKill` return no entity: they assign
no field), and so do the engine steps: a movement step, a whole movement tick,
`updatePosition`, `removeDeadNPC`, `processCombat`, a combat-worker step and any
sequence of combat resolutions, for all participants and all rolls; hence the
set of live entities never grows over a sequence of combat resolutions. -/
theorem death_is_permanent (canKill : KillRule) (g : GameEngine) (e : Nat) (n : NPC)
    (hn : n.isAlive = false) (he : (g.heap e).isAlive = false) :
    (∀ m : NPC, m.markDead.isAlive = false) ∧
    (∀ newX newY : Int, (n.setPosition newX newY).isAlive = false) ∧
    (∀ (maxX maxY : Int) (rng : Mt19937), (n.move maxX maxY rng).1.isAlive = false) ∧
    n.setRandomEngine.isAlive = false ∧
    n.markDead.isAlive = false ∧
    (∀ npc : Nat, ((movementStep canKill g npc).heap e).isAlive = false) ∧
    ((movementTick canKill g).heap e).isAlive = false ∧
    (∀ (npc : Nat) (oldX oldY newX newY : Int),
      ((g.updatePosition npc oldX oldY newX newY).heap e).isAlive = false) ∧
    (∀ npc : Nat, ((g.removeDeadNPC npc).heap e).isAlive = false) ∧
    (∀ attacker defender : Nat,
      ((processCombat canKill g attacker defender).heap e).isAlive = false) ∧
    (∀ task : CombatTask, ((combatStep canKill g task).heap e).isAlive = false) ∧
    (∀ tasks : List CombatTask, ((resolveAll canKill g tasks).heap e).isAlive = false) ∧
    (∀ (tasks : List CombatTask) (p : Nat),
      ((resolveAll canKill g tasks).heap p).isAlive = true → (g.heap p).isAlive = true) := by
  simp only [NPC.isAlive] at hn he ⊢
  refine ⟨fun _ => rfl, fun _ _ => hn, ?_, hn, rfl, ?_, ?_, fun _ _ _ _ _ => he, fun _ => he,
    ?_, ?_, ?_, ?_⟩
  · intro maxX maxY rng
    rw [move_alive, hn]
  · intro npc
    rw [movementStep_heap]
    split_ifs with h
    · rw [move_alive, ← h.2, he]
    · exact he
  · unfold movementTick
    rw [movementTick_alive, he]
  · intro a d
    rcases processCombat_heap_cases canKill g a d e with h | h <;> rw [h]
    · exact he
    · rfl
  · intro task
    unfold combatStep
    dsimp only
    split_ifs
    · rcases processCombat_heap_cases canKill
        { g with combatQueue := (g.combatQueue.tryPop task).2.2 }
        (g.combatQueue.tryPop task).2.1.attacker (g.combatQueue.tryPop task).2.1.defender e
        with h | h <;> rw [h]
      · exact he
      · rfl
    · exact he
  · intro tasks
    rcases resolveAll_heap_cases canKill tasks g e with h | h <;> rw [h]
    · exact he
    · rfl
  · intro tasks p hp
    rcases resolveAll_heap_cases canKill tasks g p with h | h <;> rw [h] at hp
    · exact hp
    · exact absurd hp (by simp [NPC.markDead])

/-- Witness for C3: the dead rogue of the sample engine stays dead through a
combat task that names it. -/
theorem death_is_permanent_witness :
    ((GameEngine.processCombat engineKillRule sampleEngine 1 2).heap 2).isAlive = false :=
  (death_is_permanent engineKillRule sampleEngine 2 (sampleHeap 2) rfl rfl).2.2.2.2.2.2.2.2.2.1 1 2

end Entities

/-! ## Combat resolution -/

section Combat

open GameEngine

theorem dice_pos (g : Mt19937) : 1 ≤ (uniform_int_distribution 1 6 g).1 ∧
    (uniform_int_distribution 1 6 g).1 ≤ 6 := by
  simp only [uniform_int_distribution]
  omega

theorem rollDice_nonneg (n : NPC) (g : Mt19937) : 0 ≤ (n.rollDice g).1 := by
  unfold NPC.rollDice
  split_ifs
  · exact le_refl 0
  · have := dice_pos g
    omega

theorem tryKill_flag (n other : NPC) (g : Mt19937) :
    (n.tryKill other g).1 = decide ((n.rollDice g).1 > (other.rollDice (n.rollDice g).2).1) := by
  unfold NPC.tryKill
  split_ifs with h
  · have h0 : (n.rollDice g) = (0, g) := by simp [NPC.rollDice, h]
    have := rollDice_nonneg other g
    rw [h0]
    simp only [gt_iff_lt]
    symm
    rw [decide_eq_false_iff_not]
    omega
  · rfl

theorem tryKill_rng (n other : NPC) (g : Mt19937) :
    (n.tryKill other g).2 =
      if n.randomEngine = true then (other.rollDice (n.rollDice g).2).2 else g := by
  unfold NPC.tryKill
  split_ifs <;> simp_all

theorem processCombat_live (canKill : KillRule) (g : GameEngine) (a d : Nat)
    (ha : (g.heap a).alive = true) (hd : (g.heap d).alive = true)
    (akd dka : Bool) (mid : Mt19937)
    (hakd : akd = (canKill (g.heap a).type (g.heap d).type &&
      ((g.heap a).tryKill (g.heap d) g.randomEngine).1))
    (hmid : mid = if canKill (g.heap a).type (g.heap d).type = true
      then ((g.heap a).tryKill (g.heap d) g.randomEngine).2 else g.randomEngine)
    (hdka : dka = (canKill (g.heap d).type (g.heap a).type &&
      ((g.heap d).tryKill (g.heap a) mid).1)) :
    (∀ e, (processCombat canKill g a d).heap e =
      if (e = d ∧ akd = true) ∨ (e = a ∧ dka = true) then (g.heap e).markDead else g.heap e) ∧
    (∀ c, (processCombat canKill g a d).positionMap c =
      match g.positionMap c with
      | some p => if (p = d ∧ akd = true) ∨ (p = a ∧ dka = true) then none else some p
      | none => none) := by
  subst hdka hmid hakd
  unfold processCombat
  simp only [NPC.isAlive, NPC.getType, ha, hd, Bool.not_true, Bool.or_self, Bool.false_eq_true,
    if_false]
  by_cases h1 : canKill (g.heap a).type (g.heap d).type = true <;>
  by_cases h2 : canKill (g.heap d).type (g.heap a).type = true <;>
  simp only [h1, h2, if_true, if_false, Bool.true_and, Bool.false_and, Bool.and_false,
    Bool.false_eq_true, and_false, false_or, or_false, Bool.and_true] <;>
  refine ⟨fun e => ?_, fun c => ?_⟩
  all_goals
    generalize ((g.heap a).tryKill (g.heap d) g.randomEngine).1 = t1
    generalize ((g.heap d).tryKill (g.heap a) _).1 = t2
  · cases t1 <;> cases t2 <;>
      simp [GameEngine.removeDeadNPC, Function.update_apply] <;>
      split_ifs <;> simp_all [markDead_markDead]
  · cases hpm : g.positionMap c <;> cases t1 <;> cases t2 <;>
      simp [GameEngine.removeDeadNPC, PositionMap.eraseValue, hpm]
    all_goals split_ifs <;> simp_all
  · cases t1 <;> simp [GameEngine.removeDeadNPC, Function.update_apply]
    split_ifs <;> simp_all
  · cases hpm : g.positionMap c <;> cases t1 <;>
      simp [GameEngine.removeDeadNPC, PositionMap.eraseValue, hpm]
  · cases t2 <;> simp [GameEngine.removeDeadNPC, Function.update_apply]
    split_ifs <;> simp_all
  · cases hpm : g.positionMap c <;> cases t2 <;>
      simp [GameEngine.removeDeadNPC, PositionMap.eraseValue, hpm]
  · simp
  · cases hpm : g.positionMap c <;> simp

/-- C4. Combat outcome: for `processCombat(attacker, defender)` on two distinct
live entities, with `A` = (the kill rule lets the attacker's kind kill the
defender's and the attacker's attack roll exceeds the defender's defense roll)
and `D` = (the kill rule lets the defender's kind kill the attacker's and the
defender's attack roll exceeds the attacker's defense roll, both rolled after
the rolls of the first evaluation, if any were drawn): afterwards the defender
is alive iff not `A`, the attacker is alive iff not `D`, a participant that
died has no entry left in the position index, every other entity is untouched
and no entity's position changes. -/
theorem processCombat_outcome (canKill : KillRule) (g : GameEngine) (attacker defender : Nat)
    (hne : attacker ≠ defender)
    (ha : (g.heap attacker).isAlive = true) (hd : (g.heap defender).isAlive = true) :
    let att := g.heap attacker
    let dfn := g.heap defender
    let attack1 := att.rollDice g.randomEngine
    let defense1 := dfn.rollDice attack1.2
    let A : Bool := canKill att.getType dfn.getType && decide (attack1.1 > defense1.1)
    let rng1 :=
      if canKill att.getType dfn.getType = true ∧ att.randomEngine = true then defense1.2
      else g.randomEngine
    let attack2 := dfn.rollDice rng1
    let defense2 := att.rollDice attack2.2
    let D : Bool := canKill dfn.getType att.getType && decide (attack2.1 > defense2.1)
    let after := processCombat canKill g attacker defender
    (after.heap defender).isAlive = !A ∧
    (after.heap attacker).isAlive = !D ∧
    (A = true → ∀ c : Cell, after.positionMap.find c ≠ some defender) ∧
    (D = true → ∀ c : Cell, after.positionMap.find c ≠ some attacker) ∧
    (∀ e : Nat, e ≠ attacker → e ≠ defender → after.heap e = g.heap e) ∧
    (∀ e : Nat, (after.heap e).getX = (g.heap e).getX ∧ (after.heap e).getY = (g.heap e).getY) := by
  intro att dfn attack1 defense1 A rng1 attack2 defense2 D after
  simp only [NPC.isAlive] at ha hd
  have hmid : rng1 = if canKill (g.heap attacker).type (g.heap defender).type = true
      then ((g.heap attacker).tryKill (g.heap defender) g.randomEngine).2
      else g.randomEngine := by
    simp only [rng1, tryKill_rng, NPC.getType, att, defense1, attack1, dfn]
    split_ifs <;> simp_all
  have hA : A = (canKill (g.heap attacker).type (g.heap defender).type &&
      ((g.heap attacker).tryKill (g.heap defender) g.randomEngine).1) := by
    simp only [A, tryKill_flag, NPC.getType, att, defense1, attack1, dfn]
  have hD : D = (canKill (g.heap defender).type (g.heap attacker).type &&
      ((g.heap defender).tryKill (g.heap attacker) rng1).1) := by
    simp only [D, tryKill_flag, NPC.getType, att, defense2, attack2, dfn]
  obtain ⟨hheap, hmap⟩ := processCombat_live canKill g attacker defender ha hd A D rng1 hA hmid hD
  have hne2 : defender ≠ attacker := fun h => hne h.symm
  refine ⟨?_, ?_, ?_, ?_, ?_, ?_⟩
  · show ((processCombat canKill g attacker defender).heap defender).alive = !A
    rw [hheap]
    cases A <;> simp [hne2, hd, NPC.markDead]
  · show ((processCombat canKill g attacker defender).heap attacker).alive = !D
    rw [hheap]
    cases D <;> simp [hne, ha, NPC.markDead]
  · intro hAt c
    show (processCombat canKill g attacker defender).positionMap c ≠ some defender
    rw [hmap]
    cases hpm : g.positionMap c with
    | none => simp
    | some p =>
      simp only []
      split_ifs with h
      · simp
      · intro hp
        apply h
        left
        exact ⟨by simpa using hp, hAt⟩
  · intro hDt c
    show (processCombat canKill g attacker defender).positionMap c ≠ some attacker
    rw [hmap]
    cases hpm : g.positionMap c with
    | none => simp
    | some p =>
      simp only []
      split_ifs with h
      · simp
      · intro hp
        apply h
        right
        exact ⟨by simpa using hp, hDt⟩
  · intro e h1 h2
    show (processCombat canKill g attacker defender).heap e = g.heap e
    rw [hheap]
    simp [h1, h2]
  · intro e
    show ((processCombat canKill g attacker defender).heap e).x = (g.heap e).x ∧
      ((processCombat canKill g attacker defender).heap e).y = (g.heap e).y
    rw [hheap]
    split_ifs <;> simp [NPC.markDead]

/-- Witness for C4: in the sample engine the bear attacks the werewolf with an
attack roll of 6 against a defense roll of 1; the werewolf dies, the bear
lives. -/
theorem processCombat_outcome_witness :
    ((processCombat engineKillRule sampleEngine 0 1).heap 1).isAlive = false ∧
    ((processCombat engineKillRule sampleEngine 0 1).heap 0).isAlive = true ∧
    ∀ c : Cell, (processCombat engineKillRule sampleEngine 0 1).positionMap.find c ≠ some 1 :=
  have h := processCombat_outcome engineKillRule sampleEngine 0 1 (by decide) rfl rfl
  ⟨h.1.trans (by decide), h.2.1.trans (by decide), h.2.2.1 (by decide)⟩

/-- C5. Idempotent re-resolution: when the attacker or the defender is already
dead, `processCombat(attacker, defender)` returns the state it was given: every
entity (alive flag and position), the position index, the generator (no roll is
drawn), the console (no kill is reported) and the queue are unchanged. -/
theorem processCombat_dead_noop (canKill : KillRule) (g : GameEngine) (attacker defender : Nat)
    (hdead : (g.heap attacker).isAlive = false ∨ (g.heap defender).isAlive = false) :
    processCombat canKill g attacker defender = g ∧
    (∀ e : Nat, (processCombat canKill g attacker defender).heap e = g.heap e) ∧
    (∀ c : Cell, (processCombat canKill g attacker defender).positionMap.find c =
      g.positionMap.find c) ∧
    (processCombat canKill g attacker defender).randomEngine.pos = g.randomEngine.pos ∧
    (processCombat canKill g attacker defender).cout = g.cout := by
  have h : processCombat canKill g attacker defender = g := by
    unfold processCombat
    rcases hdead with h | h <;> simp [h]
  rw [h]
  exact ⟨rfl, fun _ => rfl, fun _ => rfl, rfl, rfl⟩

/-- Witness for C5: a task of the sample engine whose defender is the dead rogue. -/
theorem processCombat_dead_noop_witness :
    (processCombat engineKillRule sampleEngine 1 2).cout = [] ∧
    (processCombat engineKillRule sampleEngine 1 2).randomEngine.pos = 0 :=
  have h := processCombat_dead_noop engineKillRule sampleEngine 1 2 (Or.inr rfl)
  ⟨h.2.2.2.2, h.2.2.2.1⟩

end Combat

/-! ## The neighbour scan -/

section Scan

open GameEngine

theorem mem_scanOffsets (d : Int) :
    d ∈ scanOffsets ↔ -KILL_DISTANCE ≤ d ∧ d ≤ KILL_DISTANCE := by
  have hlen : Int.toNat (KILL_DISTANCE - -KILL_DISTANCE + 1) = 11 := by decide
  simp only [scanOffsets, hlen, List.mem_map, List.mem_range]
  simp only [KILL_DISTANCE]
  constructor
  · rintro ⟨i, hi, rfl⟩
    omega
  · intro h
    exact ⟨(d + 5).toNat, by omega, by omega⟩

theorem wrapInt_window (x d : Int) (hx : isInt x) (hd : -KILL_DISTANCE ≤ d ∧ d ≤ KILL_DISTANCE) :
    ((0 ≤ wrapInt (x + d) ∧ wrapInt (x + d) < 100) ↔ (0 ≤ x + d ∧ x + d < 100)) ∧
    (0 ≤ x + d → x + d < 100 → wrapInt (x + d) = x + d) := by
  unfold isInt INT_MIN INT_MAX at hx
  unfold KILL_DISTANCE at hd
  unfold wrapInt
  omega

theorem scanCell_eq_some (g : GameEngine) (x y dx dy : Int) (e : Nat)
    (hx : isInt x) (hy : isInt y) (hdx : dx ∈ scanOffsets) (hdy : dy ∈ scanOffsets) :
    g.scanCell x y dx dy = some e ↔
      (dx ≠ 0 ∨ dy ≠ 0) ∧ inMap (x + dx, y + dy) ∧
        g.positionMap (x + dx, y + dy) = some e ∧ (g.heap e).alive = true := by
  rw [mem_scanOffsets] at hdx hdy
  obtain ⟨wx1, wx2⟩ := wrapInt_window x dx hx hdx
  obtain ⟨wy1, wy2⟩ := wrapInt_window y dy hy hdy
  unfold scanCell inMap
  simp only [MAP_WIDTH, MAP_HEIGHT, PositionMap.find, NPC.isAlive, ge_iff_le]
  by_cases h0 : dx = 0 ∧ dy = 0
  · rw [if_pos h0]
    constructor
    · intro h; cases h
    · rintro ⟨h, _⟩; omega
  · rw [if_neg h0]
    have h0' : dx ≠ 0 ∨ dy ≠ 0 := by omega
    by_cases hin : (0 ≤ x + dx ∧ x + dx < 100) ∧ (0 ≤ y + dy ∧ y + dy < 100)
    · have e1 := wx2 hin.1.1 hin.1.2
      have e2 := wy2 hin.2.1 hin.2.2
      rw [e1, e2, if_pos ⟨hin.1.1, hin.1.2, hin.2.1, hin.2.2⟩]
      cases hpm : g.positionMap (x + dx, y + dy) with
      | none => simp
      | some p =>
        simp only [Option.some.injEq]
        by_cases hal : (g.heap p).alive = true
        · rw [if_pos hal]
          simp only [Option.some.injEq]
          constructor
          · intro h; subst h; exact ⟨h0', ⟨hin.1.1, hin.1.2, hin.2.1, hin.2.2⟩, rfl, hal⟩
          · intro h; exact h.2.2.1
        · rw [if_neg hal]
          constructor
          · intro h; cases h
          · rintro ⟨_, _, h, h2⟩
            subst h
            exact absurd h2 hal
    · have hnot : ¬ (wrapInt (x + dx) ≥ 0 ∧ wrapInt (x + dx) < 100 ∧
          wrapInt (y + dy) ≥ 0 ∧ wrapInt (y + dy) < 100) := by
        intro h
        apply hin
        exact ⟨wx1.1 ⟨h.1, h.2.1⟩, wy1.1 ⟨h.2.2.1, h.2.2.2⟩⟩
      simp only [ge_iff_le] at hnot
      rw [if_neg hnot]
      constructor
      · intro h; cases h
      · rintro ⟨_, h, _⟩
        exact absurd ⟨⟨h.1, h.2.1⟩, ⟨h.2.2.1, h.2.2.2⟩⟩ hin

theorem mem_scanNeighbors (g : GameEngine) (x y : Int) (e : Nat) (hx : isInt x) (hy : isInt y) :
    e ∈ g.scanNeighbors x y ↔
      ∃ c : Cell, c ≠ (x, y) ∧ chebyshev c (x, y) ≤ KILL_DISTANCE ∧ inMap c ∧
        g.positionMap c = some e ∧ (g.heap e).alive = true := by
  unfold scanNeighbors
  simp only [List.mem_flatMap, List.mem_filterMap]
  constructor
  · rintro ⟨dx, hdx, dy, hdy, h⟩
    rw [scanCell_eq_some g x y dx dy e hx hy hdx hdy] at h
    rw [mem_scanOffsets] at hdx hdy
    refine ⟨(x + dx, y + dy), ?_, ?_, h.2.1, h.2.2.1, h.2.2.2⟩
    · intro hc
      simp only [Prod.mk.injEq] at hc
      omega
    · simp only [chebyshev, add_sub_cancel_left]
      exact max_le (abs_le.2 hdx) (abs_le.2 hdy)
  · rintro ⟨c, hne, hdist, hin, hpm, hal⟩
    obtain ⟨cx, cy⟩ := c
    simp only [chebyshev, max_le_iff, abs_le] at hdist
    have hdx : cx - x ∈ scanOffsets := (mem_scanOffsets _).2 hdist.1
    have hdy : cy - y ∈ scanOffsets := (mem_scanOffsets _).2 hdist.2
    refine ⟨cx - x, hdx, cy - y, hdy, ?_⟩
    rw [scanCell_eq_some g x y _ _ e hx hy hdx hdy]
    have e1 : x + (cx - x) = cx := by ring
    have e2 : y + (cy - y) = cy := by ring
    rw [e1, e2]
    refine ⟨?_, hin, hpm, hal⟩
    by_contra hz
    apply hne
    simp only [Prod.mk.injEq]
    omega

theorem updatePosition_map (g : GameEngine) (npc : Nat) (oldX oldY newX newY : Int) (c : Cell) :
    (g.updatePosition npc oldX oldY newX newY).positionMap c =
      if c = (newX, newY) then some npc
      else if c = (oldX, oldY) ∧ g.positionMap (oldX, oldY) = some npc then none
      else g.positionMap c := by
  unfold updatePosition
  simp only [PositionMap.find, PositionMap.assign]
  by_cases hc : c = (newX, newY)
  · simp [hc]
  · simp only [hc, if_false]
    cases hpm : g.positionMap (oldX, oldY) with
    | none => simp
    | some p =>
      simp only [Option.some.injEq]
      by_cases hp : p = npc
      · simp only [hp, if_true, PositionMap.erase, and_true]
      · simp only [hp, if_false, and_false]

theorem move_isInt (n : NPC) (rng : Mt19937) (hx : isInt n.x) (hy : isInt n.y) :
    isInt (n.move MAP_WIDTH MAP_HEIGHT rng).1.x ∧ isInt (n.move MAP_WIDTH MAP_HEIGHT rng).1.y := by
  unfold NPC.move
  unfold isInt INT_MIN INT_MAX at hx hy ⊢
  split_ifs
  · exact ⟨hx, hy⟩
  · simp only [NPC.setPosition, MAP_WIDTH, MAP_HEIGHT]
    omega

theorem movementStep_live (canKill : KillRule) (g : GameEngine) (npc : Nat)
    (ha : (g.heap npc).alive = true) :
    movementStep canKill g npc =
      { (({ g with
            heap := Function.update g.heap npc
              ((g.heap npc).move MAP_WIDTH MAP_HEIGHT g.randomEngine).1
            randomEngine := ((g.heap npc).move MAP_WIDTH MAP_HEIGHT g.randomEngine).2 } :
          GameEngine).updatePosition npc (g.heap npc).x (g.heap npc).y
            ((g.heap npc).move MAP_WIDTH MAP_HEIGHT g.randomEngine).1.x
            ((g.heap npc).move MAP_WIDTH MAP_HEIGHT g.randomEngine).1.y) with
        combatQueue :=
          { queue_ := g.combatQueue.queue_ ++
              enqueuedTasks canKill
                (Function.update g.heap npc
                  ((g.heap npc).move MAP_WIDTH MAP_HEIGHT g.randomEngine).1) npc
                ((({ g with
                    heap := Function.update g.heap npc
                      ((g.heap npc).move MAP_WIDTH MAP_HEIGHT g.randomEngine).1
                    randomEngine := ((g.heap npc).move MAP_WIDTH MAP_HEIGHT g.randomEngine).2 } :
                  GameEngine).updatePosition npc (g.heap npc).x (g.heap npc).y
                    ((g.heap npc).move MAP_WIDTH MAP_HEIGHT g.randomEngine).1.x
                    ((g.heap npc).move MAP_WIDTH MAP_HEIGHT g.randomEngine).1.y).scanNeighbors
                  ((g.heap npc).move MAP_WIDTH MAP_HEIGHT g.randomEngine).1.x
                  ((g.heap npc).move MAP_WIDTH MAP_HEIGHT g.randomEngine).1.y) } } := by
  unfold movementStep
  simp only [NPC.isAlive, ha, Bool.not_true, Bool.false_eq_true, if_false, enqueueCombat_eq,
    NPC.getX, NPC.getY, Function.update_same]
  rfl

theorem mem_enqueuedTasks (canKill : KillRule) (heap : Nat → NPC) (npc : Nat)
    (neighbors : List Nat) (t : CombatTask) :
    t ∈ enqueuedTasks canKill heap npc neighbors ↔
      t.attacker = npc ∧ t.defender ∈ neighbors ∧
        (canKill (heap npc).type (heap t.defender).type = true ∨
          canKill (heap t.defender).type (heap npc).type = true) := by
  unfold enqueuedTasks
  simp only [List.mem_map, List.mem_filter, Bool.or_eq_true]
  constructor
  · rintro ⟨nb, ⟨h1, h2⟩, rfl⟩
    exact ⟨rfl, h1, h2⟩
  · rintro ⟨h1, h2, h3⟩
    refine ⟨t.defender, ⟨h2, h3⟩, ?_⟩
    cases t
    simp only [CombatTask.mk.injEq, and_true]
    exact h1.symm

/-- C6. Range gating: in an engine state in which the key of every position-index
entry is the current position of the entity it references, every combat task
enqueued by one entity's movement step (move, updatePosition, neighbour scan,
enqueue) has the mover as attacker and a defender whose current position is
within Chebyshev distance `KILL_DISTANCE` of the mover's new position; so no
task pairs the mover with an entity farther away, whatever the kinds and the
kill rule. -/
theorem movement_tasks_in_range (canKill : KillRule) (g : GameEngine) (mover : Nat)
    (hidx : ∀ (c : Cell) (p : Nat), g.positionMap.find c = some p → cellOf g.heap p = c)
    (hx : isInt (g.heap mover).getX) (hy : isInt (g.heap mover).getY) :
    ∃ tasks : List CombatTask,
      (movementStep canKill g mover).combatQueue.queue_ = g.combatQueue.queue_ ++ tasks ∧
      (∀ t ∈ tasks, t.attacker = mover ∧
        chebyshev (cellOf (movementStep canKill g mover).heap t.defender)
          (cellOf (movementStep canKill g mover).heap mover) ≤ KILL_DISTANCE) ∧
      (∀ p : Nat, KILL_DISTANCE <
          chebyshev (cellOf (movementStep canKill g mover).heap p)
            (cellOf (movementStep canKill g mover).heap mover) →
        ∀ t ∈ tasks, ¬ (t.attacker = mover ∧ t.defender = p)) := by
  have main : ∃ tasks : List CombatTask,
      (movementStep canKill g mover).combatQueue.queue_ = g.combatQueue.queue_ ++ tasks ∧
      (∀ t ∈ tasks, t.attacker = mover ∧
        chebyshev (cellOf (movementStep canKill g mover).heap t.defender)
          (cellOf (movementStep canKill g mover).heap mover) ≤ KILL_DISTANCE) := by
    by_cases ha : (g.heap mover).alive = true
    · obtain ⟨mx, my⟩ := move_isInt (g.heap mover) g.randomEngine hx hy
      rw [movementStep_live canKill g mover ha]
      refine ⟨_, rfl, ?_⟩
      intro t ht
      rw [mem_enqueuedTasks] at ht
      obtain ⟨hatt, hmem, -⟩ := ht
      rw [mem_scanNeighbors _ _ _ _ mx my] at hmem
      obtain ⟨c, hne, hdist, -, hpm, -⟩ := hmem
      rw [updatePosition_map, if_neg hne] at hpm
      refine ⟨hatt, ?_⟩
      show chebyshev (cellOf (Function.update g.heap mover _) t.defender)
        (cellOf (Function.update g.heap mover _) mover) ≤ KILL_DISTANCE
      split_ifs at hpm with herase
      have hcell := hidx c t.defender hpm
      have hdm : t.defender ≠ mover := by
        intro heq
        rw [heq] at hcell hpm
        apply herase
        have hc : c = ((g.heap mover).x, (g.heap mover).y) := hcell.symm
        rw [hc] at hpm
        exact ⟨hc, hpm⟩
      have e1 : cellOf (Function.update g.heap mover
          ((g.heap mover).move MAP_WIDTH MAP_HEIGHT g.randomEngine).1) t.defender = c := by
        rw [← hcell]
        simp [cellOf, Function.update_apply, hdm]
      have e2 : cellOf (Function.update g.heap mover
          ((g.heap mover).move MAP_WIDTH MAP_HEIGHT g.randomEngine).1) mover =
          (((g.heap mover).move MAP_WIDTH MAP_HEIGHT g.randomEngine).1.x,
            ((g.heap mover).move MAP_WIDTH MAP_HEIGHT g.randomEngine).1.y) := by
        simp [cellOf, NPC.getX, NPC.getY]
      rw [e1, e2]
      exact hdist
    · refine ⟨[], ?_, ?_⟩
      · simp [movementStep, NPC.isAlive, ha]
      · intro t ht
        cases ht
  obtain ⟨tasks, h1, h2⟩ := main
  refine ⟨tasks, h1, h2, ?_⟩
  intro p hp t ht hcontra
  have := (h2 t ht).2
  rw [hcontra.2] at this
  omega

theorem sampleMap_consistent :
    ∀ (c : Cell) (p : Nat), sampleEngine.positionMap.find c = some p →
      cellOf sampleEngine.heap p = c := by
  intro c p h
  simp only [sampleEngine, sampleMap, PositionMap.find] at h
  split_ifs at h with h1 h2
  · cases h; rw [h1]; rfl
  · cases h; rw [h2]; rfl

/-- Witness for C6: in the sample engine the bear moves from `(10, 10)` to
`(8, 8)` and the only task enqueued names the werewolf at `(11, 11)`. -/
theorem movement_tasks_in_range_witness :
    (movementStep engineKillRule sampleEngine 0).combatQueue.queue_ =
      [{ attacker := 0, defender := 1 }] ∧
    ∃ tasks : List CombatTask,
      (movementStep engineKillRule sampleEngine 0).combatQueue.queue_ =
        sampleEngine.combatQueue.queue_ ++ tasks ∧
      (∀ t ∈ tasks, t.attacker = 0 ∧
        chebyshev (cellOf (movementStep engineKillRule sampleEngine 0).heap t.defender)
          (cellOf (movementStep engineKillRule sampleEngine 0).heap 0) ≤ KILL_DISTANCE) ∧
      (∀ p : Nat, KILL_DISTANCE <
          chebyshev (cellOf (movementStep engineKillRule sampleEngine 0).heap p)
            (cellOf (movementStep engineKillRule sampleEngine 0).heap 0) →
        ∀ t ∈ tasks, ¬ (t.attacker = 0 ∧ t.defender = p)) :=
  ⟨by decide,
    movement_tasks_in_range engineKillRule sampleEngine 0 sampleMap_consistent
      (by decide) (by decide)⟩

end Scan

/-! ## The position-index invariant -/

section Index

open GameEngine

theorem indexInvariant_of_keys (heap : Nat → NPC) (m : PositionMap)
    (h : ∀ (p : Nat) (c : Cell), m c = some p → c = cellOf heap p) : IndexInvariant heap m := by
  refine ⟨?_, h⟩
  intro p c1 c2 h1 h2
  rw [h p c1 h1, h p c2 h2]

theorem processCombat_map_sub (canKill : KillRule) (g : GameEngine) (a d : Nat) (c : Cell)
    (p : Nat) (h : (processCombat canKill g a d).positionMap c = some p) :
    g.positionMap c = some p := by
  by_cases hal : (g.heap a).alive = true ∧ (g.heap d).alive = true
  · obtain ⟨-, hmap⟩ := processCombat_live canKill g a d hal.1 hal.2 _ _ _ rfl rfl rfl
    rw [hmap] at h
    cases hpm : g.positionMap c with
    | none => rw [hpm] at h; cases h
    | some q =>
      rw [hpm] at h
      simp only [] at h
      split_ifs at h <;> exact h
  · have hg : processCombat canKill g a d = g := by
      unfold processCombat
      simp only [NPC.isAlive]
      rw [if_pos]
      by_cases h1 : (g.heap a).alive = true
      · have h2 : (g.heap d).alive = false := by
          cases hd : (g.heap d).alive
          · rfl
          · exact absurd ⟨h1, hd⟩ hal
        simp [h2]
      · simp [h1]
    rw [hg] at h
    exact h

theorem cellOf_processCombat (canKill : KillRule) (g : GameEngine) (a d p : Nat) :
    cellOf (processCombat canKill g a d).heap p = cellOf g.heap p := by
  rcases processCombat_heap_cases canKill g a d p with h | h <;>
    simp [cellOf, h, NPC.markDead, NPC.getX, NPC.getY]

theorem initializeLoop_keys (count : Nat) :
    ∀ (i : Nat) (g : GameEngine),
      (∀ (p : Nat) (c : Cell), g.positionMap c = some p → p < i ∧ c = cellOf g.heap p) →
      ∀ (p : Nat) (c : Cell), (initializeLoop count i g).positionMap c = some p →
        c = cellOf (initializeLoop count i g).heap p := by
  induction count with
  | zero =>
    intro i g h p c hpc
    exact (h p c hpc).2
  | succ k ih =>
    intro i g h
    unfold initializeLoop
    apply ih
    intro p c hpc
    simp only [PositionMap.assign] at hpc
    by_cases hc : c = ((uniform_int_distribution 0 (MAP_WIDTH - 1) g.randomEngine).1,
        (uniform_int_distribution 0 (MAP_WIDTH - 1)
          (uniform_int_distribution 0 (MAP_WIDTH - 1) g.randomEngine).2).1)
    · rw [if_pos hc] at hpc
      cases hpc
      refine ⟨Nat.lt_succ_self _, ?_⟩
      rw [hc]
      simp only [cellOf, Function.update_same, NPC.getX, NPC.getY, NPC.setRandomEngine,
        NPCFactory.create]
      split <;> rfl
    · rw [if_neg hc] at hpc
      obtain ⟨hlt, hcell⟩ := h p c hpc
      refine ⟨Nat.lt_succ_of_lt hlt, ?_⟩
      rw [hcell]
      simp [cellOf, Function.update_apply, Nat.ne_of_lt hlt]

theorem movementStep_keys (canKill : KillRule) (g : GameEngine) (npc : Nat)
    (h : ∀ (p : Nat) (c : Cell), g.positionMap c = some p → c = cellOf g.heap p) :
    ∀ (p : Nat) (c : Cell), (movementStep canKill g npc).positionMap c = some p →
      c = cellOf (movementStep canKill g npc).heap p := by
  intro p c hpc
  by_cases ha : (g.heap npc).alive = true
  · rw [movementStep_live canKill g npc ha] at hpc ⊢
    simp only [updatePosition_heap] at hpc ⊢
    rw [updatePosition_map] at hpc
    by_cases hc : c = (((g.heap npc).move MAP_WIDTH MAP_HEIGHT g.randomEngine).1.x,
        ((g.heap npc).move MAP_WIDTH MAP_HEIGHT g.randomEngine).1.y)
    · rw [if_pos hc] at hpc
      cases hpc
      rw [hc]
      simp [cellOf, NPC.getX, NPC.getY]
    · rw [if_neg hc] at hpc
      split_ifs at hpc with herase
      have hcell := h p c hpc
      have hp : p ≠ npc := by
        intro heq
        rw [heq] at hcell hpc
        apply herase
        have hc2 : c = ((g.heap npc).x, (g.heap npc).y) := hcell
        rw [hc2] at hpc
        exact ⟨hc2, hpc⟩
      rw [hcell]
      simp [cellOf, Function.update_apply, hp]
  · have hg : movementStep canKill g npc = g := by
      simp [movementStep, NPC.isAlive, ha]
    rw [hg] at hpc ⊢
    exact h p c hpc

/-- C7. Position-index invariant: "every entity is referenced by at most one index
entry, and that entry's key is the entity's current `(x, y)`" holds in the
engine built by the constructor (after `initializeNPCs`), and every sequential
engine step preserves it: one entity's movement step (`move`, then
`updatePosition` with the old and new coordinates, then scan and enqueue),
`removeDeadNPC`, and `processCombat`. -/
theorem index_invariant (canKill : KillRule) (g : GameEngine)
    (hinv : IndexInvariant g.heap g.positionMap) :
    (∀ (seed : Mt19937) (memory : Nat → NPC),
      IndexInvariant (GameEngine.new seed memory).heap (GameEngine.new seed memory).positionMap) ∧
    (∀ npc : Nat,
      IndexInvariant (movementStep canKill g npc).heap (movementStep canKill g npc).positionMap) ∧
    (∀ (npc : Nat) (rng : Mt19937),
      IndexInvariant (Function.update g.heap npc ((g.heap npc).move MAP_WIDTH MAP_HEIGHT rng).1)
        (({ g with
              heap := Function.update g.heap npc
                ((g.heap npc).move MAP_WIDTH MAP_HEIGHT rng).1 } : GameEngine).updatePosition npc
          (g.heap npc).getX (g.heap npc).getY
          ((g.heap npc).move MAP_WIDTH MAP_HEIGHT rng).1.getX
          ((g.heap npc).move MAP_WIDTH MAP_HEIGHT rng).1.getY).positionMap) ∧
    (∀ npc : Nat, IndexInvariant (g.removeDeadNPC npc).heap (g.removeDeadNPC npc).positionMap) ∧
    (∀ attacker defender : Nat,
      IndexInvariant (processCombat canKill g attacker defender).heap
        (processCombat canKill g attacker defender).positionMap) := by
  have hkeys : ∀ (p : Nat) (c : Cell), g.positionMap c = some p → c = cellOf g.heap p := hinv.2
  refine ⟨?_, ?_, ?_, ?_, ?_⟩
  · intro seed memory
    apply indexInvariant_of_keys
    unfold GameEngine.new initializeNPCs
    apply initializeLoop_keys
    intro p c hpc
    cases hpc
  · intro npc
    exact indexInvariant_of_keys _ _ (movementStep_keys canKill g npc hkeys)
  · intro npc rng
    apply indexInvariant_of_keys
    intro p c hpc
    rw [updatePosition_map] at hpc
    simp only [NPC.getX, NPC.getY] at hpc
    by_cases hc : c = (((g.heap npc).move MAP_WIDTH MAP_HEIGHT rng).1.x,
        ((g.heap npc).move MAP_WIDTH MAP_HEIGHT rng).1.y)
    · rw [if_pos hc] at hpc
      cases hpc
      rw [hc]
      simp [cellOf, NPC.getX, NPC.getY]
    · rw [if_neg hc] at hpc
      split_ifs at hpc with herase
      have hcell := hkeys p c hpc
      have hp : p ≠ npc := by
        intro heq
        rw [heq] at hcell hpc
        apply herase
        have hc2 : c = ((g.heap npc).x, (g.heap npc).y) := hcell
        rw [hc2] at hpc
        exact ⟨hc2, hpc⟩
      rw [hcell]
      simp [cellOf, Function.update_apply, hp]
  · intro npc
    apply indexInvariant_of_keys
    intro p c hpc
    apply hkeys
    simp only [removeDeadNPC, PositionMap.eraseValue] at hpc
    cases hpm : g.positionMap c with
    | none => rw [hpm] at hpc; cases hpc
    | some q =>
      rw [hpm] at hpc
      simp only [] at hpc
      split_ifs at hpc
      exact hpc
  · intro a d
    apply indexInvariant_of_keys
    intro p c hpc
    rw [cellOf_processCombat]
    exact hkeys p c (processCombat_map_sub canKill g a d c p hpc)

/-- Witness for C7: the sample engine satisfies the invariant, and so does the
state after the bear's movement step. -/
theorem index_invariant_witness :
    IndexInvariant (movementStep engineKillRule sampleEngine 0).heap
      (movementStep engineKillRule sampleEngine 0).positionMap :=
  (index_invariant engineKillRule sampleEngine
    (indexInvariant_of_keys _ _ (fun p c h => (sampleMap_consistent c p h).symm))).2.1 0

end Index

/-! ## The neighbour query -/

section Neighbours

open GameEngine

theorem forall₂_filter_filterMap {α β : Type} (f : α → Option β) (l : List α) :
    List.Forall₂ (fun a b => a ∈ l ∧ f a = some b) (l.filter (fun a => (f a).isSome))
      (l.filterMap f) := by
  induction l with
  | nil => exact List.Forall₂.nil
  | cons a rest ih =>
    have ih2 : List.Forall₂ (fun x b => x ∈ a :: rest ∧ f x = some b)
        (rest.filter (fun a => (f a).isSome)) (rest.filterMap f) :=
      ih.imp (fun x b h => ⟨List.mem_cons_of_mem _ h.1, h.2⟩)
    cases hfa : f a with
    | none =>
      rw [List.filter_cons, List.filterMap_cons_none hfa]
      simpa [hfa] using ih2
    | some b =>
      rw [List.filter_cons, List.filterMap_cons_some hfa]
      simp only [hfa, Option.isSome_some, if_true]
      exact List.Forall₂.cons ⟨List.mem_cons_self _ _, hfa⟩ ih2

theorem scanNeighbors_eq_product (g : GameEngine) (x y : Int) :
    g.scanNeighbors x y =
      (scanOffsets ×ˢ scanOffsets).filterMap (fun p => g.scanCell x y p.1 p.2) := by
  show _ = (List.product scanOffsets scanOffsets).filterMap _
  unfold scanNeighbors List.product
  rw [List.filterMap_flatMap]
  rfl

theorem scanOffsets_nodup : scanOffsets.Nodup := by decide

/-- C8. Neighbour query: for a centre `(newX, newY)` and an index whose keys all
lie inside the map, the neighbour list is obtained from a duplicate-free list of
cells, one element per cell, in scan order: the cells are exactly those `c`
other than the centre, within Chebyshev distance `KILL_DISTANCE` of it, whose
index entry references a live entity, and the element listed for `c` is the
entity the index maps `c` to. Hence every element is alive and is indexed at a
cell of that window. In an index where no entity has two entries, as in every
index that satisfies the position-index invariant, the occupant of the centre
cell is never listed and neither is an entity indexed farther away than
`KILL_DISTANCE`. -/
theorem scanNeighbors_spec (g : GameEngine) (newX newY : Int)
    (hx : isInt newX) (hy : isInt newY) (hkeys : KeysInMap g.positionMap) :
    (∃ cells : List Cell, cells.Nodup ∧
      (∀ c : Cell, c ∈ cells ↔
        (c ≠ (newX, newY) ∧ chebyshev c (newX, newY) ≤ KILL_DISTANCE ∧
          ∃ e : Nat, g.positionMap.find c = some e ∧ (g.heap e).isAlive = true)) ∧
      List.Forall₂ (fun c e => g.positionMap.find c = some e) cells
        (g.scanNeighbors newX newY)) ∧
    (∀ e ∈ g.scanNeighbors newX newY, (g.heap e).isAlive = true ∧
      ∃ c : Cell, c ≠ (newX, newY) ∧ chebyshev c (newX, newY) ≤ KILL_DISTANCE ∧
        g.positionMap.find c = some e) ∧
    ((∀ (p : Nat) (c1 c2 : Cell), g.positionMap.find c1 = some p →
        g.positionMap.find c2 = some p → c1 = c2) →
      (∀ e : Nat, g.positionMap.find (newX, newY) = some e → e ∉ g.scanNeighbors newX newY) ∧
      (∀ (e : Nat) (c : Cell), g.positionMap.find c = some e →
        KILL_DISTANCE < chebyshev c (newX, newY) → e ∉ g.scanNeighbors newX newY)) ∧
    (IndexInvariant g.heap g.positionMap →
      (∀ e : Nat, g.positionMap.find (newX, newY) = some e → e ∉ g.scanNeighbors newX newY) ∧
      (∀ (e : Nat) (c : Cell), g.positionMap.find c = some e →
        KILL_DISTANCE < chebyshev c (newX, newY) → e ∉ g.scanNeighbors newX newY) ∧
      (∀ e ∈ g.scanNeighbors newX newY,
        cellOf g.heap e ≠ (newX, newY) ∧
          chebyshev (cellOf g.heap e) (newX, newY) ≤ KILL_DISTANCE)) := by
  have hmem : ∀ e ∈ g.scanNeighbors newX newY, (g.heap e).isAlive = true ∧
      ∃ c : Cell, c ≠ (newX, newY) ∧ chebyshev c (newX, newY) ≤ KILL_DISTANCE ∧
        g.positionMap.find c = some e := by
    intro e he
    rw [mem_scanNeighbors g newX newY e hx hy] at he
    obtain ⟨c, h1, h2, -, h4, h5⟩ := he
    exact ⟨h5, c, h1, h2, h4⟩
  have hexcl : (∀ (p : Nat) (c1 c2 : Cell), g.positionMap.find c1 = some p →
        g.positionMap.find c2 = some p → c1 = c2) →
      (∀ e : Nat, g.positionMap.find (newX, newY) = some e → e ∉ g.scanNeighbors newX newY) ∧
      (∀ (e : Nat) (c : Cell), g.positionMap.find c = some e →
        KILL_DISTANCE < chebyshev c (newX, newY) → e ∉ g.scanNeighbors newX newY) := by
    intro huniq
    constructor
    · intro e hcentre he
      obtain ⟨-, c, hne, -, hpm⟩ := hmem e he
      exact hne (huniq e c (newX, newY) hpm hcentre)
    · intro e c hpm hfar he
      obtain ⟨-, c2, -, hdist, hpm2⟩ := hmem e he
      rw [huniq e c c2 hpm hpm2] at hfar
      omega
  refine ⟨?_, hmem, hexcl, ?_⟩
  · refine ⟨((scanOffsets ×ˢ scanOffsets).filter
        (fun p => (g.scanCell newX newY p.1 p.2).isSome)).map
        (fun p => (newX + p.1, newY + p.2)), ?_, ?_, ?_⟩
    · apply List.Nodup.map
      · intro p q hpq
        simp only [Prod.mk.injEq, add_right_inj] at hpq
        exact Prod.ext hpq.1 hpq.2
      · exact (scanOffsets_nodup.product scanOffsets_nodup).filter _
    · rintro ⟨cx, cy⟩
      simp only [List.mem_map, List.mem_filter, List.mem_product, Prod.exists, Prod.mk.injEq,
        Option.isSome_iff_exists]
      constructor
      · rintro ⟨dx, dy, ⟨⟨hdx, hdy⟩, e, he⟩, rfl, rfl⟩
        rw [scanCell_eq_some g newX newY dx dy e hx hy hdx hdy] at he
        rw [mem_scanOffsets] at hdx hdy
        refine ⟨?_, ?_, e, he.2.2.1, he.2.2.2⟩
        · intro hc
          simp only [Prod.mk.injEq] at hc
          omega
        · simp only [chebyshev, add_sub_cancel_left]
          exact max_le (abs_le.2 hdx) (abs_le.2 hdy)
      · rintro ⟨hne, hdist, e, hpm, hal⟩
        simp only [chebyshev, max_le_iff, abs_le] at hdist
        have hdx : cx - newX ∈ scanOffsets := (mem_scanOffsets _).2 hdist.1
        have hdy : cy - newY ∈ scanOffsets := (mem_scanOffsets _).2 hdist.2
        refine ⟨cx - newX, cy - newY, ⟨⟨hdx, hdy⟩, e, ?_⟩, by ring, by ring⟩
        rw [scanCell_eq_some g newX newY _ _ e hx hy hdx hdy]
        have e1 : newX + (cx - newX) = cx := by ring
        have e2 : newY + (cy - newY) = cy := by ring
        rw [e1, e2]
        refine ⟨?_, hkeys (cx, cy) e hpm, hpm, hal⟩
        by_contra hz
        apply hne
        simp only [Prod.mk.injEq]
        omega
    · rw [List.forall₂_map_left_iff, scanNeighbors_eq_product]
      refine (forall₂_filter_filterMap (fun p : Int × Int => g.scanCell newX newY p.1 p.2)
        _).imp ?_
      rintro ⟨dx, dy⟩ e ⟨hp, he⟩
      rw [List.mem_product] at hp
      rw [scanCell_eq_some g newX newY dx dy e hx hy hp.1 hp.2] at he
      exact he.2.2.1
  · intro hinv
    refine ⟨(hexcl hinv.1).1, (hexcl hinv.1).2, ?_⟩
    intro e he
    obtain ⟨-, c, hne, hdist, hpm⟩ := hmem e he
    rw [← hinv.2 e c hpm]
    exact ⟨hne, hdist⟩

theorem sampleEngine_keys : KeysInMap sampleEngine.positionMap := by
  intro c p h
  simp only [sampleEngine, sampleMap, PositionMap.find] at h
  split_ifs at h with h1 h2
  · rw [h1]; decide
  · rw [h2]; decide

/-- Witness for C8: around the bear of the sample engine, whose index satisfies
the position-index invariant, the neighbour list is the werewolf indexed at
`(11, 11)`; the bear, which occupies the centre cell, is not listed. -/
theorem scanNeighbors_spec_witness :
    sampleEngine.scanNeighbors 10 10 = [1] ∧
    (∀ e ∈ sampleEngine.scanNeighbors 10 10, (sampleEngine.heap e).isAlive = true ∧
      ∃ c : Cell, c ≠ (10, 10) ∧ chebyshev c (10, 10) ≤ KILL_DISTANCE ∧
        sampleEngine.positionMap.find c = some e) ∧
    0 ∉ sampleEngine.scanNeighbors 10 10 :=
  have h := scanNeighbors_spec sampleEngine 10 10 (by decide) (by decide) sampleEngine_keys
  ⟨by decide, h.2.1,
    (h.2.2.2 (indexInvariant_of_keys _ _
      (fun p c hpc => (sampleMap_consistent c p hpc).symm))).1 0 rfl⟩

end Neighbours

/-! ## The combat queue -/

section Queue

theorem queueRun_step_inv {α : Type} (r : QueueRun α) (op : QueueOp α)
    (h : r.pushed = r.popped ++ r.queue.queue_) :
    (r.step op).pushed = (r.step op).popped ++ (r.step op).queue.queue_ := by
  cases op with
  | push task =>
    simp only [QueueRun.step, ThreadSafeQueue.push, h, List.append_assoc]
  | tryPop =>
    unfold QueueRun.step ThreadSafeQueue.tryPop
    cases hq : r.queue.queue_ with
    | nil =>
      simp only [Bool.false_eq_true, if_false]
      rw [h, hq]
    | cons front rest =>
      simp only [if_true]
      rw [h, hq]
      simp

theorem queueRun_foldl_inv {α : Type} (ops : List (QueueOp α)) :
    ∀ r : QueueRun α, r.pushed = r.popped ++ r.queue.queue_ →
      (ops.foldl QueueRun.step r).pushed =
        (ops.foldl QueueRun.step r).popped ++ (ops.foldl QueueRun.step r).queue.queue_ := by
  induction ops with
  | nil => intro r h; exact h
  | cons op rest ih =>
    intro r h
    exact ih (r.step op) (queueRun_step_inv r op h)

theorem queueRun_foldl_pushed {α : Type} (ops : List (QueueOp α)) :
    ∀ r : QueueRun α, (ops.foldl QueueRun.step r).pushed = r.pushed ++ pushedTasks ops := by
  induction ops with
  | nil => intro r; simp [pushedTasks]
  | cons op rest ih =>
    intro r
    rw [List.foldl_cons, ih]
    cases op with
    | push task => simp [QueueRun.step, pushedTasks]
    | tryPop =>
      simp only [QueueRun.step, pushedTasks, List.filterMap_cons]
      split_ifs <;> rfl

/-- C9. The combat queue is FIFO: for every sequence of `push` and `tryPop` calls
on a queue that starts empty, the tasks pushed (in push order) are the tasks
returned by the successful `tryPop` calls (in call order) followed by the
content of the queue, so the returned tasks are a prefix of the pushed ones;
`empty()` is true iff as many tasks were popped as pushed; `tryPop` returns
false exactly when the queue is empty and then leaves the queue and its output
argument unchanged, and otherwise hands out the front task and removes it. -/
theorem queue_fifo {α : Type} (ops : List (QueueOp α)) (out : α) :
    (QueueRun.run ops out).pushed = pushedTasks ops ∧
    (QueueRun.run ops out).pushed =
      (QueueRun.run ops out).popped ++ (QueueRun.run ops out).queue.queue_ ∧
    (QueueRun.run ops out).popped <+: pushedTasks ops ∧
    ((QueueRun.run ops out).queue.empty = true ↔
      (QueueRun.run ops out).pushed.length = (QueueRun.run ops out).popped.length) ∧
    (∀ (q : ThreadSafeQueue α) (task : α),
      ((q.tryPop task).1 = false ↔ q.empty = true) ∧
      (q.empty = true → q.tryPop task = (false, task, q)) ∧
      (∀ (front : α) (rest : List α), q.queue_ = front :: rest →
        q.tryPop task = (true, front, { queue_ := rest }))) := by
  have hinv := queueRun_foldl_inv ops
    { queue := { queue_ := [] }, pushed := [], popped := [], out := out } rfl
  have hpush := queueRun_foldl_pushed ops
    { queue := { queue_ := [] }, pushed := [], popped := [], out := out }
  simp only [List.nil_append] at hpush
  refine ⟨hpush, hinv, ?_, ?_, ?_⟩
  · rw [← hpush]
    exact ⟨_, hinv.symm⟩
  · have hlen := congrArg List.length hinv
    rw [List.length_append] at hlen
    unfold QueueRun.run
    simp only [ThreadSafeQueue.empty, List.isEmpty_iff]
    constructor
    · intro h
      rw [h] at hlen
      simpa using hlen
    · intro h
      apply List.eq_nil_of_length_eq_zero
      omega
  · intro q task
    unfold ThreadSafeQueue.tryPop ThreadSafeQueue.empty
    cases hq : q.queue_ with
    | nil => simp
    | cons front rest => simp

/-- Witness for C9: push `1`, push `2`, pop, pop, pop (the last one fails),
push `3`: the pops returned `1` then `2`, and `3` is still queued. -/
theorem queue_fifo_witness :
    (QueueRun.run [QueueOp.push 1, QueueOp.push 2, QueueOp.tryPop, QueueOp.tryPop,
      QueueOp.tryPop, QueueOp.push 3] (0 : Nat)).popped = [1, 2] ∧
    (QueueRun.run [QueueOp.push 1, QueueOp.push 2, QueueOp.tryPop, QueueOp.tryPop,
      QueueOp.tryPop, QueueOp.push 3] (0 : Nat)).popped <+:
      pushedTasks [QueueOp.push 1, QueueOp.push 2, QueueOp.tryPop, QueueOp.tryPop,
        QueueOp.tryPop, QueueOp.push 3] ∧
    ({ queue_ := [] } : ThreadSafeQueue Nat).tryPop 7 = (false, 7, { queue_ := [] }) :=
  have h := queue_fifo [QueueOp.push 1, QueueOp.push 2, QueueOp.tryPop, QueueOp.tryPop,
      QueueOp.tryPop, QueueOp.push 3] (0 : Nat)
  ⟨rfl, h.2.2.1, (h.2.2.2.2 { queue_ := [] } 7).2.1 rfl⟩

end Queue

/-! ## The movement step of one entity -/

section Movement

theorem direction_range (rng : Mt19937) :
    -MOVE_DISTANCE ≤ (uniform_int_distribution (-MOVE_DISTANCE) MOVE_DISTANCE rng).1 ∧
    (uniform_int_distribution (-MOVE_DISTANCE) MOVE_DISTANCE rng).1 ≤ MOVE_DISTANCE := by
  have h5 : (MOVE_DISTANCE - -MOVE_DISTANCE + 1 : Int) = 5 := by decide
  simp only [uniform_int_distribution, h5]
  simp only [MOVE_DISTANCE]
  omega

/-- Counterexample to C10 as stated: a live bear with a random source at
`(INT_MAX, 0)` draws `dx = 1`, `dy = 0`; `x + dx` does not fit an `int`, the sum
wraps to `INT_MIN` and the clamp yields `x = 0`, whereas
`max(0, min(MAP_WIDTH - 1, x + dx))` is `99`. -/
theorem move_overflow_counterexample :
    (uniform_int_distribution (-MOVE_DISTANCE) MOVE_DISTANCE ⟨fun i => 3 - i, 0⟩).1 = 1 ∧
    (((Bear.new 2147483647 0 "b").setRandomEngine.move MAP_WIDTH MAP_HEIGHT
      ⟨fun i => 3 - i, 0⟩).1.getX = 0) ∧
    max 0 (min (MAP_WIDTH - 1) ((Bear.new 2147483647 0 "b").setRandomEngine.getX + 1)) = 99 ∧
    (((Bear.new 2147483647 0 "b").setRandomEngine.move MAP_WIDTH MAP_HEIGHT
      ⟨fun i => 3 - i, 0⟩).1.getX ≠
      max 0 (min (MAP_WIDTH - 1) ((Bear.new 2147483647 0 "b").setRandomEngine.getX +
        (uniform_int_distribution (-MOVE_DISTANCE) MOVE_DISTANCE ⟨fun i => 3 - i, 0⟩).1))) := by
  decide

/-- C10 (as amended). The movement step is a clamped perturbation: for a live
entity with a random source at `(x, y)`, `move(MAP_WIDTH, MAP_HEIGHT)` draws `dx`
and then `dy`, both in `[-MOVE_DISTANCE, MOVE_DISTANCE]`, and, provided `x + dx`
and `y + dy` fit an `int`, leaves the entity at
`(max(0, min(MAP_WIDTH-1, x+dx)), max(0, min(MAP_HEIGHT-1, y+dy)))`; if `(x, y)`
was inside the map the sums always fit and each coordinate changes by at most
`MOVE_DISTANCE`. -/
theorem move_clamped (n : NPC) (rng : Mt19937)
    (halive : n.isAlive = true) (hrng : n.randomEngine = true) :
    let d1 := uniform_int_distribution (-MOVE_DISTANCE) MOVE_DISTANCE rng
    let d2 := uniform_int_distribution (-MOVE_DISTANCE) MOVE_DISTANCE d1.2
    let dx := d1.1
    let dy := d2.1
    let after := n.move MAP_WIDTH MAP_HEIGHT rng
    (-MOVE_DISTANCE ≤ dx ∧ dx ≤ MOVE_DISTANCE ∧ -MOVE_DISTANCE ≤ dy ∧ dy ≤ MOVE_DISTANCE) ∧
    after.2 = d2.2 ∧ after.2.pos = rng.pos + 2 ∧
    (isInt (n.getX + dx) → after.1.getX = max 0 (min (MAP_WIDTH - 1) (n.getX + dx))) ∧
    (isInt (n.getY + dy) → after.1.getY = max 0 (min (MAP_HEIGHT - 1) (n.getY + dy))) ∧
    (inMap (n.getX, n.getY) →
      after.1.getX = max 0 (min (MAP_WIDTH - 1) (n.getX + dx)) ∧
      after.1.getY = max 0 (min (MAP_HEIGHT - 1) (n.getY + dy)) ∧
      |after.1.getX - n.getX| ≤ MOVE_DISTANCE ∧ |after.1.getY - n.getY| ≤ MOVE_DISTANCE) := by
  intro d1 d2 dx dy after
  simp only [NPC.isAlive] at halive
  have hdx : -MOVE_DISTANCE ≤ dx ∧ dx ≤ MOVE_DISTANCE := direction_range rng
  have hdy : -MOVE_DISTANCE ≤ dy ∧ dy ≤ MOVE_DISTANCE := direction_range d1.2
  have hmove : after = ((n.setPosition
      (max 0 (min (wrapInt (MAP_WIDTH - 1)) (wrapInt (n.x + dx))))
      (max 0 (min (wrapInt (MAP_HEIGHT - 1)) (wrapInt (n.y + dy))))), d2.2) := by
    simp only [after, NPC.move, halive, hrng, Bool.not_true, Bool.or_self, Bool.false_eq_true,
      if_false, dx, dy, d1, d2]
  have hX : isInt (n.x + dx) → after.1.x = max 0 (min (MAP_WIDTH - 1) (n.x + dx)) := by
    intro h
    rw [hmove, wrapInt_of_isInt _ h]
    simp only [NPC.setPosition, MAP_WIDTH, wrapInt]
    omega
  have hY : isInt (n.y + dy) → after.1.y = max 0 (min (MAP_HEIGHT - 1) (n.y + dy)) := by
    intro h
    rw [hmove, wrapInt_of_isInt _ h]
    simp only [NPC.setPosition, MAP_HEIGHT, wrapInt]
    omega
  refine ⟨⟨hdx.1, hdx.2, hdy.1, hdy.2⟩, ?_, ?_, hX, hY, ?_⟩
  · rw [hmove]
  · rw [hmove]
    rfl
  · intro hin
    simp only [inMap, NPC.getX, NPC.getY, MAP_WIDTH, MAP_HEIGHT] at hin
    simp only [MOVE_DISTANCE] at hdx hdy
    have ix : isInt (n.x + dx) := by
      simp only [isInt, INT_MIN, INT_MAX]
      omega
    have iy : isInt (n.y + dy) := by
      simp only [isInt, INT_MIN, INT_MAX]
      omega
    have ex := hX ix
    have ey := hY iy
    simp only [NPC.getX, NPC.getY]
    refine ⟨ex, ey, ?_, ?_⟩
    · rw [ex, abs_le]
      simp only [MAP_WIDTH, MOVE_DISTANCE]
      omega
    · rw [ey, abs_le]
      simp only [MAP_HEIGHT, MOVE_DISTANCE]
      omega

/-- Witness for C10: a bear at `(99, 0)` draws `dx = 2`, `dy = -2` and stays at
`(99, 0)`. -/
theorem move_clamped_witness :
    ((Bear.new 99 0 "b").setRandomEngine.move MAP_WIDTH MAP_HEIGHT ⟨fun i => 4 - 4 * i, 0⟩).1.getX
      = max 0 (min (MAP_WIDTH - 1) (99 + 2)) ∧
    ((Bear.new 99 0 "b").setRandomEngine.move MAP_WIDTH MAP_HEIGHT ⟨fun i => 4 - 4 * i, 0⟩).1.getY
      = max 0 (min (MAP_HEIGHT - 1) (0 + -2)) :=
  have h := move_clamped (Bear.new 99 0 "b").setRandomEngine ⟨fun i => 4 - 4 * i, 0⟩ rfl rfl
  ⟨(h.2.2.2.2.2 (by decide)).1, (h.2.2.2.2.2 (by decide)).2.1⟩

end Movement

/-! ## The position index: move and eviction -/

section IndexUpdates

open GameEngine

/-- C11. Compare-and-remove on move: after `updatePosition(e, old, new)` the index
maps `new` to `e`; if `old` differs from `new`, the cell `old` is absent when it
mapped to `e` before and is unchanged when it mapped to another entity or was
absent; every cell other than `old` and `new` is unchanged; an entry at the old
cell that belongs to another entity is never erased (the cell stays occupied);
nothing but the index changes. -/
theorem updatePosition_spec (g : GameEngine) (e : Nat) (oldX oldY newX newY : Int) :
    (g.updatePosition e oldX oldY newX newY).positionMap.find (newX, newY) = some e ∧
    ((oldX, oldY) ≠ (newX, newY) → g.positionMap.find (oldX, oldY) = some e →
      (g.updatePosition e oldX oldY newX newY).positionMap.find (oldX, oldY) = none) ∧
    ((oldX, oldY) ≠ (newX, newY) → g.positionMap.find (oldX, oldY) ≠ some e →
      (g.updatePosition e oldX oldY newX newY).positionMap.find (oldX, oldY) =
        g.positionMap.find (oldX, oldY)) ∧
    (∀ c : Cell, c ≠ (oldX, oldY) → c ≠ (newX, newY) →
      (g.updatePosition e oldX oldY newX newY).positionMap.find c = g.positionMap.find c) ∧
    (∀ p : Nat, p ≠ e → g.positionMap.find (oldX, oldY) = some p →
      (g.updatePosition e oldX oldY newX newY).positionMap.find (oldX, oldY) ≠ none) ∧
    (g.updatePosition e oldX oldY newX newY).heap = g.heap ∧
    (g.updatePosition e oldX oldY newX newY).combatQueue = g.combatQueue ∧
    (g.updatePosition e oldX oldY newX newY).randomEngine = g.randomEngine := by
  simp only [PositionMap.find]
  refine ⟨?_, ?_, ?_, ?_, ?_, rfl, rfl, rfl⟩
  · rw [updatePosition_map, if_pos rfl]
  · intro hne hold
    rw [updatePosition_map, if_neg hne, if_pos ⟨rfl, hold⟩]
  · intro hne hold
    rw [updatePosition_map, if_neg hne, if_neg (fun h => hold h.2)]
  · intro c h1 h2
    rw [updatePosition_map, if_neg h2, if_neg (fun h => h1 h.1)]
  · intro p hp hold
    rw [updatePosition_map]
    by_cases hc : (oldX, oldY) = (newX, newY)
    · rw [if_pos hc]
      exact Option.some_ne_none e
    · rw [if_neg hc, if_neg, hold]
      · exact Option.some_ne_none p
      · intro h
        rw [hold] at h
        exact hp (Option.some.inj h.2)

/-- Witness for C11: the bear of the sample engine moves from `(10, 10)` to
`(8, 8)`: its old entry is removed, the werewolf's entry at `(11, 11)` stays. -/
theorem updatePosition_spec_witness :
    (sampleEngine.updatePosition 0 10 10 8 8).positionMap.find (10, 10) = none ∧
    (sampleEngine.updatePosition 0 10 10 8 8).positionMap.find (11, 11) =
      sampleEngine.positionMap.find (11, 11) :=
  have h := updatePosition_spec sampleEngine 0 10 10 8 8
  ⟨h.2.1 (by decide) rfl, h.2.2.2.1 (11, 11) (by decide) (by decide)⟩

/-- C12. Full eviction on death: after `removeDeadNPC(e)` the index is the old
index restricted to the entries whose value is not `e`: no entry references `e`
any more, whatever cells referenced it, every entry that references another
entity is kept with the same key and value, no entry is added, and nothing but
the index changes. -/
theorem removeDeadNPC_spec (g : GameEngine) (e : Nat) :
    (∀ c : Cell, (g.removeDeadNPC e).positionMap.find c ≠ some e) ∧
    (∀ (c : Cell) (p : Nat), p ≠ e → g.positionMap.find c = some p →
      (g.removeDeadNPC e).positionMap.find c = some p) ∧
    (∀ (c : Cell) (p : Nat), (g.removeDeadNPC e).positionMap.find c = some p →
      p ≠ e ∧ g.positionMap.find c = some p) ∧
    (∀ c : Cell, (g.removeDeadNPC e).positionMap.find c =
      if g.positionMap.find c = some e then none else g.positionMap.find c) ∧
    (g.removeDeadNPC e).heap = g.heap ∧
    (g.removeDeadNPC e).combatQueue = g.combatQueue ∧
    (g.removeDeadNPC e).randomEngine = g.randomEngine := by
  have key : ∀ c : Cell, (g.removeDeadNPC e).positionMap c =
      if g.positionMap c = some e then none else g.positionMap c := by
    intro c
    simp only [removeDeadNPC, PositionMap.eraseValue]
    cases hpm : g.positionMap c with
    | none => simp
    | some q =>
      simp only [Option.some.injEq]
  simp only [PositionMap.find]
  refine ⟨?_, ?_, ?_, key, rfl, rfl, rfl⟩
  · intro c
    rw [key]
    split_ifs with h
    · exact Option.noConfusion
    · exact h
  · intro c p hp hpm
    rw [key, hpm, if_neg]
    intro h
    exact hp (Option.some.inj h)
  · intro c p h
    rw [key] at h
    split_ifs at h with h2
    refine ⟨?_, h⟩
    intro hpe
    rw [hpe] at h
    exact h2 h

/-- Witness for C12: in the engine whose index holds two entries for the bear,
`removeDeadNPC` removes both. -/
theorem removeDeadNPC_spec_witness :
    (staleEngine.removeDeadNPC 0).positionMap.find (10, 10) = none ∧
    (staleEngine.removeDeadNPC 0).positionMap.find (11, 10) = none ∧
    (sampleEngine.removeDeadNPC 0).positionMap.find (11, 11) = some 1 :=
  ⟨rfl, rfl, (removeDeadNPC_spec sampleEngine 0).2.1 (11, 11) 1 (by decide) rfl⟩

end IndexUpdates

/-! ## Dice and construction -/

section Dice

open GameEngine

/-- C13. Dice range: for an entity whose random source has been set and every
state of that source, `rollDice()` draws once and returns `r` with `1 ≤ r ≤ 6`. -/
theorem rollDice_range (n : NPC) (rng : Mt19937) (hrng : n.randomEngine = true) :
    1 ≤ (n.rollDice rng).1 ∧ (n.rollDice rng).1 ≤ 6 ∧
    (n.rollDice rng).2.pos = rng.pos + 1 := by
  have h := dice_pos rng
  simp only [NPC.rollDice, hrng, Bool.not_true, Bool.false_eq_true, if_false]
  exact ⟨h.1, h.2, rfl⟩

/-- Witness for C13: the bear of the sample engine rolls a 6 first. -/
theorem rollDice_range_witness :
    ((sampleHeap 0).rollDice sampleRng).1 = 6 ∧
    1 ≤ ((sampleHeap 0).rollDice sampleRng).1 ∧ ((sampleHeap 0).rollDice sampleRng).1 ≤ 6 :=
  have h := rollDice_range (sampleHeap 0) sampleRng rfl
  ⟨by decide, h.1, h.2.1⟩

/-- C15. Construction: a newly constructed `Bear`, `Werewolf` or `Rogue` reports
its own kind, the coordinates and the name exactly as given (no clamping), is
alive, and has no random source yet. -/
theorem constructors_report_arguments (x y : Int) (name : String) :
    ((Bear.new x y name).getType = NPCType.Bear ∧
      (Bear.new x y name).getX = x ∧ (Bear.new x y name).getY = y ∧
      (Bear.new x y name).getName = name ∧ (Bear.new x y name).isAlive = true ∧
      (Bear.new x y name).randomEngine = false) ∧
    ((Werewolf.new x y name).getType = NPCType.Werewolf ∧
      (Werewolf.new x y name).getX = x ∧ (Werewolf.new x y name).getY = y ∧
      (Werewolf.new x y name).getName = name ∧ (Werewolf.new x y name).isAlive = true ∧
      (Werewolf.new x y name).randomEngine = false) ∧
    ((Rogue.new x y name).getType = NPCType.Rogue ∧
      (Rogue.new x y name).getX = x ∧ (Rogue.new x y name).getY = y ∧
      (Rogue.new x y name).getName = name ∧ (Rogue.new x y name).isAlive = true ∧
      (Rogue.new x y name).randomEngine = false) ∧
    (∀ type : NPCType,
      (NPC.new type x y name).getType = type ∧ (NPC.new type x y name).getX = x ∧
      (NPC.new type x y name).getY = y ∧ (NPC.new type x y name).getName = name ∧
      (NPC.new type x y name).isAlive = true) :=
  ⟨⟨rfl, rfl, rfl, rfl, rfl, rfl⟩, ⟨rfl, rfl, rfl, rfl, rfl, rfl⟩,
    ⟨rfl, rfl, rfl, rfl, rfl, rfl⟩, fun _ => ⟨rfl, rfl, rfl, rfl, rfl⟩⟩

end Dice

/-! ## Dice drawn by a combat task -/

section Draws

open GameEngine

theorem processCombat_rng (canKill : KillRule) (g : GameEngine) (a d : Nat)
    (ha : (g.heap a).alive = true) (hd : (g.heap d).alive = true) :
    (processCombat canKill g a d).randomEngine =
      (if canKill (g.heap d).type (g.heap a).type = true then
        (g.heap d).tryKill (g.heap a)
          (if canKill (g.heap a).type (g.heap d).type = true then
            (g.heap a).tryKill (g.heap d) g.randomEngine
          else (false, g.randomEngine)).2
      else (false, (if canKill (g.heap a).type (g.heap d).type = true then
            (g.heap a).tryKill (g.heap d) g.randomEngine
          else (false, g.randomEngine)).2)).2 := by
  unfold processCombat
  simp only [NPC.isAlive, NPC.getType, ha, hd, Bool.not_true, Bool.or_self, Bool.false_eq_true,
    if_false]
  split_ifs <;> rfl

theorem tryKill_draws (n other : NPC) (rng : Mt19937)
    (hn : n.randomEngine = true) (ho : other.randomEngine = true) :
    (n.tryKill other rng).2.pos = rng.pos + 2 ∧ (n.tryKill other rng).2.out = rng.out := by
  simp [NPC.tryKill, NPC.rollDice, hn, ho, uniform_int_distribution]

theorem engineKillRule_directions (a d : NPCType) :
    permittedDirections engineKillRule a d = if a = d then 0 else 1 := by
  cases a <;> cases d <;> rfl

/-- Counterexample to C14 as stated: in the sample engine the bear and the
werewolf are alive and have a random source, and `processCombat(bear, werewolf)`
advances the generator by two draws, not four: the kill rule does not let a
werewolf kill a bear, so the second evaluation rolls nothing. -/
theorem processCombat_two_draws_counterexample :
    (sampleEngine.heap 0).isAlive = true ∧ (sampleEngine.heap 1).isAlive = true ∧
    (sampleEngine.heap 0).randomEngine = true ∧ (sampleEngine.heap 1).randomEngine = true ∧
    (processCombat engineKillRule sampleEngine 0 1).randomEngine.pos =
      sampleEngine.randomEngine.pos + 2 ∧
    (processCombat engineKillRule sampleEngine 0 1).randomEngine.pos ≠
      sampleEngine.randomEngine.pos + 4 := by
  decide

/-- C14 (as amended). Draws per task: for `processCombat(attacker, defender)` on
two live entities that have a random source, two dice rolls (an attack roll and a
defense roll) are drawn for each direction of combat that the kill rule permits
between the two kinds, and none for a direction it does not permit: the
generator advances by twice the number of permitted directions, so by four
exactly when both directions are permitted. With the engine's kill rule that is
two draws when the kinds differ and none when they are equal. -/
theorem processCombat_draws (canKill : KillRule) (g : GameEngine) (attacker defender : Nat)
    (ha : (g.heap attacker).isAlive = true) (hd : (g.heap defender).isAlive = true)
    (hra : (g.heap attacker).randomEngine = true)
    (hrd : (g.heap defender).randomEngine = true) :
    (processCombat canKill g attacker defender).randomEngine.pos =
      g.randomEngine.pos +
        2 * permittedDirections canKill (g.heap attacker).getType (g.heap defender).getType ∧
    (processCombat canKill g attacker defender).randomEngine.out = g.randomEngine.out ∧
    ((processCombat canKill g attacker defender).randomEngine.pos = g.randomEngine.pos + 4 ↔
      (canKill (g.heap attacker).getType (g.heap defender).getType = true ∧
        canKill (g.heap defender).getType (g.heap attacker).getType = true)) ∧
    (processCombat engineKillRule g attacker defender).randomEngine.pos =
      g.randomEngine.pos +
        (if (g.heap attacker).getType = (g.heap defender).getType then 0 else 2) := by
  simp only [NPC.isAlive] at ha hd
  have count : ∀ ck : KillRule,
      (processCombat ck g attacker defender).randomEngine.pos =
        g.randomEngine.pos +
          2 * permittedDirections ck (g.heap attacker).type (g.heap defender).type ∧
      (processCombat ck g attacker defender).randomEngine.out = g.randomEngine.out := by
    intro ck
    rw [processCombat_rng ck g attacker defender ha hd]
    unfold permittedDirections
    by_cases h1 : ck (g.heap attacker).type (g.heap defender).type = true <;>
    by_cases h2 : ck (g.heap defender).type (g.heap attacker).type = true <;>
    simp only [h1, h2, if_true, if_false, Bool.false_eq_true]
    · have e1 := tryKill_draws (g.heap attacker) (g.heap defender) g.randomEngine hra hrd
      have e2 := tryKill_draws (g.heap defender) (g.heap attacker)
        ((g.heap attacker).tryKill (g.heap defender) g.randomEngine).2 hrd hra
      rw [e2.1, e2.2, e1.1, e1.2]
      exact ⟨by omega, rfl⟩
    · have e1 := tryKill_draws (g.heap attacker) (g.heap defender) g.randomEngine hra hrd
      rw [e1.1, e1.2]
      exact ⟨by omega, rfl⟩
    · have e2 := tryKill_draws (g.heap defender) (g.heap attacker) g.randomEngine hrd hra
      rw [e2.1, e2.2]
      exact ⟨by omega, rfl⟩
    · exact ⟨by omega, trivial⟩
  simp only [NPC.getType]
  refine ⟨(count canKill).1, (count canKill).2, ?_, ?_⟩
  · rw [(count canKill).1]
    unfold permittedDirections
    by_cases h1 : canKill (g.heap attacker).type (g.heap defender).type = true <;>
    by_cases h2 : canKill (g.heap defender).type (g.heap attacker).type = true <;>
    simp [h1, h2]
  · rw [(count engineKillRule).1, engineKillRule_directions]
    split_ifs <;> rfl

/-- Witness for C14: the bear attacks the werewolf in the sample engine; one
direction is permitted and two dice are drawn. -/
theorem processCombat_draws_witness :
    (processCombat engineKillRule sampleEngine 0 1).randomEngine.pos =
      sampleEngine.randomEngine.pos +
        2 * permittedDirections engineKillRule (sampleEngine.heap 0).getType
          (sampleEngine.heap 1).getType ∧
    permittedDirections engineKillRule (sampleEngine.heap 0).getType
      (sampleEngine.heap 1).getType = 1 :=
  ⟨(processCombat_draws engineKillRule sampleEngine 0 1 rfl rfl rfl rfl).1, by decide⟩

end Draws

/-! ## Shutdown -/

section Shutdown

open GameEngine

theorem stop_flags (g : GameEngine) (r1 r2 r3 : WorkerRest) :
    (g.stop r1 r2 r3).running = false ∧ (g.stop r1 r2 r3).movementWorker = false ∧
    (g.stop r1 r2 r3).combatWorker = false ∧ (g.stop r1 r2 r3).printWorker = false := by
  unfold stop joinWorker
  cases hm : g.movementWorker <;> cases hc : g.combatWorker <;> cases hp : g.printWorker <;>
    simp [hm, hc, hp]

theorem stop_of_stopped (g : GameEngine) (r1 r2 r3 : WorkerRest)
    (h0 : g.running = false) (h1 : g.movementWorker = false) (h2 : g.combatWorker = false)
    (h3 : g.printWorker = false) : g.stop r1 r2 r3 = g := by
  obtain ⟨heap, npcs, queue, index, running, cout, mw, cw, pw, rng⟩ := g
  simp only at h0 h1 h2 h3
  subst h0 h1 h2 h3
  rfl

/-- C16. The method `stop()` is idempotent: for every engine state and whatever the
workers still do while they are joined, after `stop()` the running flag is false
and no worker is joinable, and a second `stop()` (for example the destructor's,
after `run()` has already stopped the engine) returns the state unchanged, so
calling `stop()` twice leaves the same state as calling it once. -/
theorem stop_idempotent (g : GameEngine) (r1 r2 r3 s1 s2 s3 : WorkerRest) :
    (g.stop r1 r2 r3).running = false ∧
    (g.stop r1 r2 r3).movementWorker = false ∧
    (g.stop r1 r2 r3).combatWorker = false ∧
    (g.stop r1 r2 r3).printWorker = false ∧
    (g.stop r1 r2 r3).stop s1 s2 s3 = g.stop r1 r2 r3 ∧
    (g.stop r1 r2 r3).destructor s1 s2 s3 = g.stop r1 r2 r3 := by
  obtain ⟨h0, h1, h2, h3⟩ := stop_flags g r1 r2 r3
  exact ⟨h0, h1, h2, h3, stop_of_stopped _ s1 s2 s3 h0 h1 h2 h3,
    stop_of_stopped _ s1 s2 s3 h0 h1 h2 h3⟩

end Shutdown

/-! ## The movement worker: enqueueing and dead entities -/

section Enqueue

open GameEngine

/-- C18. Enqueue rule: the enqueue loop pushes, behind the tasks already queued,
exactly one task per element `n` of the neighbour list, in list order, for which
`canKill(mover kind, n kind)` or `canKill(n kind, mover kind)` holds, each with
the mover as attacker and `n` as defender, and changes nothing else; the tasks
pushed by the movement step of a live entity are those for the neighbour list
scanned around its new position. -/
theorem enqueue_rule (canKill : KillRule) (g : GameEngine) (mover : Nat) (neighbors : List Nat) :
    (enqueueCombat canKill g mover neighbors).combatQueue.queue_ =
      g.combatQueue.queue_ ++
        (neighbors.filter (fun n =>
          canKill (g.heap mover).getType (g.heap n).getType ||
            canKill (g.heap n).getType (g.heap mover).getType)).map
          (fun n => { attacker := mover, defender := n }) ∧
    (∀ n ∈ neighbors,
      canKill (g.heap mover).getType (g.heap n).getType = false →
      canKill (g.heap n).getType (g.heap mover).getType = false →
      ∀ t ∈ (enqueueCombat canKill g mover neighbors).combatQueue.queue_,
        t ∈ g.combatQueue.queue_ ∨ t.defender ≠ n) ∧
    (enqueueCombat canKill g mover neighbors).heap = g.heap ∧
    (enqueueCombat canKill g mover neighbors).positionMap = g.positionMap ∧
    ((g.heap mover).isAlive = true →
      (movementStep canKill g mover).combatQueue.queue_ =
        g.combatQueue.queue_ ++
          (((movementStep canKill g mover).scanNeighbors
              ((movementStep canKill g mover).heap mover).getX
              ((movementStep canKill g mover).heap mover).getY).filter (fun n =>
            canKill ((movementStep canKill g mover).heap mover).getType
                ((movementStep canKill g mover).heap n).getType ||
              canKill ((movementStep canKill g mover).heap n).getType
                ((movementStep canKill g mover).heap mover).getType)).map
            (fun n => { attacker := mover, defender := n })) := by
  refine ⟨?_, ?_, ?_, ?_, ?_⟩
  · rw [enqueueCombat_eq]
    rfl
  · intro n _ h1 h2 t ht
    rw [enqueueCombat_eq] at ht
    simp only [List.mem_append] at ht
    rcases ht with ht | ht
    · exact Or.inl ht
    · right
      rw [mem_enqueuedTasks] at ht
      intro heq
      rw [heq] at ht
      simp only [NPC.getType] at h1 h2
      rcases ht.2.2 with h | h
      · rw [h1] at h; cases h
      · rw [h2] at h; cases h
  · rw [enqueueCombat_eq]
  · rw [enqueueCombat_eq]
  · intro ha
    simp only [NPC.isAlive] at ha
    rw [movementStep_live canKill g mover ha]
    simp only [updatePosition_heap, Function.update_same, NPC.getX, NPC.getY, NPC.getType,
      enqueuedTasks]
    rfl

/-- Witness for C18: for the bear of the sample engine and the neighbour list
"werewolf, bear" only the task (bear, werewolf) is queued, and the movement step
of the bear, whose scan finds the werewolf, queues the same task. -/
theorem enqueue_rule_witness :
    (enqueueCombat engineKillRule sampleEngine 0 [1, 0]).combatQueue.queue_ =
      [{ attacker := 0, defender := 1 }] ∧
    (movementStep engineKillRule sampleEngine 0).combatQueue.queue_ =
      [{ attacker := 0, defender := 1 }] :=
  ⟨(enqueue_rule engineKillRule sampleEngine 0 [1, 0]).1.trans (by decide),
    ((enqueue_rule engineKillRule sampleEngine 0 [1, 0]).2.2.2.2 rfl).trans (by decide)⟩

/-- C19. Dead entities do not move: for a dead entity, every `maxX`, `maxY` and
every state of the random source, `move(maxX, maxY)` leaves the entity (so `x`
and `y`) unchanged and draws nothing; and the movement worker's step for a dead
entity leaves the whole engine state unchanged: the position index, the combat
queue and the generator are not touched. -/
theorem dead_do_not_move (canKill : KillRule) (g : GameEngine) (npc : Nat) (n : NPC)
    (hn : n.isAlive = false) (hg : (g.heap npc).isAlive = false) :
    (∀ (maxX maxY : Int) (rng : Mt19937),
      (n.move maxX maxY rng).1 = n ∧
      (n.move maxX maxY rng).1.getX = n.getX ∧ (n.move maxX maxY rng).1.getY = n.getY ∧
      (n.move maxX maxY rng).2 = rng) ∧
    movementStep canKill g npc = g ∧
    (movementStep canKill g npc).positionMap = g.positionMap ∧
    (movementStep canKill g npc).combatQueue = g.combatQueue ∧
    (movementStep canKill g npc).randomEngine = g.randomEngine ∧
    (movementStep canKill g npc).heap = g.heap := by
  simp only [NPC.isAlive] at hn hg
  have hmove : ∀ (maxX maxY : Int) (rng : Mt19937), n.move maxX maxY rng = (n, rng) := by
    intro maxX maxY rng
    simp [NPC.move, hn]
  have hstep : movementStep canKill g npc = g := by
    simp [movementStep, NPC.isAlive, hg]
  refine ⟨?_, hstep, ?_, ?_, ?_, ?_⟩
  · intro maxX maxY rng
    rw [hmove]
    exact ⟨rfl, rfl, rfl, rfl⟩
  all_goals rw [hstep]

/-- Witness for C19: the dead rogue at address 2 of the sample engine. -/
theorem dead_do_not_move_witness :
    ((sampleHeap 2).move 100 100 sampleRng).1.getX = 50 ∧
    ((sampleHeap 2).move 100 100 sampleRng).2.pos = 0 ∧
    (movementStep engineKillRule sampleEngine 2).combatQueue = sampleEngine.combatQueue :=
  have h := dead_do_not_move engineKillRule sampleEngine 2 (sampleHeap 2) rfl rfl
  ⟨(h.1 100 100 sampleRng).2.1, congrArg Mt19937.pos (h.1 100 100 sampleRng).2.2.2, h.2.2.2.1⟩

end Enqueue

/-! ## The render worker -/

section Render

open GameEngine

theorem renderNPC_dim (heap : Nat → NPC) (map : List (List Char)) (npc : Nat)
    (hlen : map.length = 100) (hrows : ∀ row ∈ map, row.length = 100) :
    (renderNPC heap map npc).length = 100 ∧ ∀ row ∈ renderNPC heap map npc, row.length = 100 := by
  unfold renderNPC
  dsimp only
  split_ifs with h1 h2
  · refine ⟨by rw [List.length_set]; exact hlen, ?_⟩
    intro row hrow
    rcases List.mem_or_eq_of_mem_set hrow with h | h
    · exact hrows row h
    · rw [h, List.length_set]
      simp only [MAP_HEIGHT, NPC.getY] at h2
      have hy : ((heap npc).getY).toNat < map.length := by
        simp only [NPC.getY]
        omega
      rw [List.getD_eq_getElem map [] hy]
      exact hrows _ (List.getElem_mem hy)
  · exact ⟨hlen, hrows⟩
  · exact ⟨hlen, hrows⟩

theorem renderNPC_cellAt (heap : Nat → NPC) (map : List (List Char)) (npc : Nat) (x y : Nat)
    (hlen : map.length = 100) (hrows : ∀ row ∈ map, row.length = 100)
    (hx : x < 100) (hy : y < 100) :
    cellAt (renderNPC heap map npc) x y =
      if (heap npc).alive = true ∧ (heap npc).x = (x : Int) ∧ (heap npc).y = (y : Int)
      then some (symbolOf (heap npc).type) else cellAt map x y := by
  unfold renderNPC
  simp only [NPC.isAlive, NPC.getX, NPC.getY, NPC.getType, MAP_WIDTH, MAP_HEIGHT, ge_iff_le]
  by_cases ha : (heap npc).alive = true
  · rw [if_pos ha]
    by_cases hb : 0 ≤ (heap npc).x ∧ (heap npc).x < 100 ∧ 0 ≤ (heap npc).y ∧ (heap npc).y < 100
    · rw [if_pos hb]
      have hY : (heap npc).y.toNat < map.length := by omega
      have hrow : ((map.getD (heap npc).y.toNat []).length = 100) := by
        rw [List.getD_eq_getElem map [] hY]
        exact hrows _ (List.getElem_mem hY)
      have hgetD : map[(heap npc).y.toNat]? = some (map.getD (heap npc).y.toNat []) := by
        rw [List.getD_eq_getElem map [] hY, List.getElem?_eq_getElem hY]
      unfold cellAt
      rw [List.getElem?_set]
      by_cases hyy : (heap npc).y.toNat = y
      · rw [if_pos hyy, if_pos hY]
        simp only []
        rw [List.getElem?_set]
        by_cases hxx : (heap npc).x.toNat = x
        · have hX : (heap npc).x.toNat < (map.getD (heap npc).y.toNat []).length := by omega
          rw [if_pos hxx, if_pos hX, if_pos]
          exact ⟨ha, by omega, by omega⟩
        · rw [if_neg hxx, if_neg]
          · rw [← hyy, hgetD]
          · intro h
            apply hxx
            omega
      · rw [if_neg hyy, if_neg]
        intro h
        apply hyy
        omega
    · rw [if_neg hb, if_neg]
      intro h
      apply hb
      omega
  · rw [if_neg ha, if_neg]
    intro h
    exact ha h.1

theorem foldl_renderNPC (heap : Nat → NPC) (x y : Nat) (hx : x < 100) (hy : y < 100)
    (l : List Nat) :
    ∀ map : List (List Char), map.length = 100 → (∀ row ∈ map, row.length = 100) →
      ((l.foldl (renderNPC heap) map).length = 100 ∧
        ∀ row ∈ l.foldl (renderNPC heap) map, row.length = 100) ∧
      cellAt (l.foldl (renderNPC heap) map) x y =
        match (l.filter (fun p => (heap p).isAlive &&
            decide ((heap p).getX = (x : Int) ∧ (heap p).getY = (y : Int)))).getLast? with
        | some p => some (symbolOf (heap p).getType)
        | none => cellAt map x y := by
  induction l with
  | nil =>
    intro map hlen hrows
    exact ⟨⟨hlen, hrows⟩, rfl⟩
  | cons p rest ih =>
    intro map hlen hrows
    obtain ⟨hlen2, hrows2⟩ := renderNPC_dim heap map p hlen hrows
    obtain ⟨hdim, hcell⟩ := ih (renderNPC heap map p) hlen2 hrows2
    refine ⟨hdim, ?_⟩
    rw [List.foldl_cons, hcell, renderNPC_cellAt heap map p x y hlen hrows hx hy]
    simp only [NPC.isAlive, NPC.getX, NPC.getY, NPC.getType, List.filter_cons]
    by_cases hp : (heap p).alive = true ∧ (heap p).x = (x : Int) ∧ (heap p).y = (y : Int)
    · have hdec : ((heap p).alive &&
          decide ((heap p).x = (x : Int) ∧ (heap p).y = (y : Int))) = true := by
        simp [hp.1, hp.2.1, hp.2.2]
      rw [if_pos hp, if_pos hdec, List.getLast?_cons]
      cases (List.filter (fun p => (heap p).alive &&
          decide ((heap p).x = (x : Int) ∧ (heap p).y = (y : Int))) rest).getLast? <;> rfl
    · have hdec : ¬ ((heap p).alive &&
          decide ((heap p).x = (x : Int) ∧ (heap p).y = (y : Int))) = true := by
        intro h
        apply hp
        simpa using h
      rw [if_neg hp, if_neg hdec]

/-- C20. Render rasterisation: for every registry the grid built by the render
worker has `MAP_HEIGHT` rows of `MAP_WIDTH` characters; at row `y` and column `x`
it holds the symbol (`B` for Bear, `W` for Werewolf, `R` for Rogue) of the last
entity in registry order that is alive and positioned at `(x, y)`, and a dot when
no live entity is at `(x, y)`; so every symbol on the grid belongs to a live
entity of the registry standing on that cell (dead entities and entities outside
the map never appear); the render step changes no entity, no index entry,
neither the queue nor the generator: it only writes to the console; the symbols
are the characters `B`, `W` and `R` as listed, and a cell shows a dot exactly
when no live entity of the registry stands on it. -/
theorem render_grid (g : GameEngine) :
    (buildMap g).length = MAP_HEIGHT.toNat ∧
    (∀ row ∈ buildMap g, row.length = MAP_WIDTH.toNat) ∧
    (∀ x y : Nat, (x : Int) < MAP_WIDTH → (y : Int) < MAP_HEIGHT →
      cellAt (buildMap g) x y =
        match (liveAt g x y).getLast? with
        | some p => some (symbolOf (g.heap p).getType)
        | none => some '.') ∧
    (∀ (x y : Nat) (c : Char), cellAt (buildMap g) x y = some c → c ≠ '.' →
      ∃ p ∈ g.npcs, (g.heap p).isAlive = true ∧ (g.heap p).getX = (x : Int) ∧
        (g.heap p).getY = (y : Int) ∧ c = symbolOf (g.heap p).getType) ∧
    (printMapStep g).heap = g.heap ∧
    (printMapStep g).positionMap = g.positionMap ∧
    (printMapStep g).combatQueue = g.combatQueue ∧
    (printMapStep g).randomEngine = g.randomEngine ∧
    (printMapStep g).npcs = g.npcs ∧
    (symbolOf NPCType.Bear = 'B' ∧ symbolOf NPCType.Werewolf = 'W' ∧
      symbolOf NPCType.Rogue = 'R') ∧
    (∀ (x y : Nat) (p : Nat), (x : Int) < MAP_WIDTH → (y : Int) < MAP_HEIGHT →
      (liveAt g x y).getLast? = some p →
      cellAt (buildMap g) x y =
        some (match (g.heap p).getType with
          | NPCType.Bear => 'B'
          | NPCType.Werewolf => 'W'
          | NPCType.Rogue => 'R')) ∧
    (∀ x y : Nat, (x : Int) < MAP_WIDTH → (y : Int) < MAP_HEIGHT →
      (cellAt (buildMap g) x y = some '.' ↔ liveAt g x y = [])) := by
  have hH : MAP_HEIGHT.toNat = 100 := rfl
  have hW : MAP_WIDTH.toNat = 100 := rfl
  have hlen0 : (List.replicate MAP_HEIGHT.toNat (List.replicate MAP_WIDTH.toNat '.')).length
      = 100 := by
    rw [List.length_replicate, hH]
  have hrows0 : ∀ row ∈ List.replicate MAP_HEIGHT.toNat (List.replicate MAP_WIDTH.toNat '.'),
      row.length = 100 := by
    intro row hrow
    rw [List.eq_of_mem_replicate hrow, List.length_replicate, hW]
  have hcell0 : ∀ x y : Nat, x < 100 → y < 100 →
      cellAt (List.replicate MAP_HEIGHT.toNat (List.replicate MAP_WIDTH.toNat '.')) x y
        = some '.' := by
    intro x y hx hy
    unfold cellAt
    rw [hH, hW, List.getElem?_replicate, if_pos hy]
    simp only []
    rw [List.getElem?_replicate, if_pos hx]
  have hcell : ∀ x y : Nat, (x : Int) < MAP_WIDTH → (y : Int) < MAP_HEIGHT →
      cellAt (buildMap g) x y =
        match (liveAt g x y).getLast? with
        | some p => some (symbolOf (g.heap p).getType)
        | none => some '.' := by
    intro x y hx hy
    simp only [MAP_WIDTH, MAP_HEIGHT] at hx hy
    have hx2 : x < 100 := by omega
    have hy2 : y < 100 := by omega
    have h := (foldl_renderNPC g.heap x y hx2 hy2 g.npcs _ hlen0 hrows0).2
    unfold buildMap liveAt
    rw [h, hcell0 x y hx2 hy2]
  have hdim := (foldl_renderNPC g.heap 0 0 (by decide) (by decide) g.npcs _ hlen0 hrows0).1
  refine ⟨?_, ?_, hcell, ?_, rfl, rfl, rfl, rfl, rfl, ⟨rfl, rfl, rfl⟩, ?_, ?_⟩
  · rw [hH]; exact hdim.1
  · rw [hW]; exact hdim.2
  · intro x y c hc hdot
    have hy : y < 100 := by
      by_contra hge
      unfold cellAt at hc
      have hnone : (buildMap g)[y]? = none := List.getElem?_eq_none (by
        have := hdim.1
        unfold buildMap
        omega)
      rw [hnone] at hc
      cases hc
    have hx : x < 100 := by
      by_contra hge
      unfold cellAt at hc
      cases hrow : (buildMap g)[y]? with
      | none => rw [hrow] at hc; cases hc
      | some row =>
        rw [hrow] at hc
        simp only [] at hc
        have hmem : row ∈ buildMap g := List.mem_iff_getElem?.2 ⟨y, hrow⟩
        have hl := hdim.2 row hmem
        have hnone : row[x]? = none := List.getElem?_eq_none (by omega)
        rw [hnone] at hc
        cases hc
    have h := hcell x y (by simp only [MAP_WIDTH]; omega) (by simp only [MAP_HEIGHT]; omega)
    rw [hc] at h
    cases hlast : (liveAt g x y).getLast? with
    | none =>
      rw [hlast] at h
      simp only [Option.some.injEq] at h
      exact absurd h hdot
    | some p =>
      rw [hlast] at h
      simp only [Option.some.injEq] at h
      have hmem : p ∈ liveAt g x y := List.mem_of_getLast?_eq_some hlast
      unfold liveAt at hmem
      rw [List.mem_filter] at hmem
      obtain ⟨hp, hcond⟩ := hmem
      simp only [Bool.and_eq_true, decide_eq_true_eq] at hcond
      exact ⟨p, hp, hcond.1, hcond.2.1, hcond.2.2, h⟩
  · intro x y p hx hy hp
    rw [hcell x y hx hy, hp]
    simp only [Option.some.injEq]
    generalize (g.heap p).getType = t
    cases t <;> rfl
  · intro x y hx hy
    rw [hcell x y hx hy]
    cases hlast : (liveAt g x y).getLast? with
    | none =>
      simp only [true_iff]
      exact List.getLast?_eq_none_iff.1 hlast
    | some p =>
      simp only [Option.some.injEq]
      constructor
      · intro h
        exfalso
        revert h
        generalize (g.heap p).getType = t
        cases t <;> decide
      · intro h
        rw [h] at hlast
        cases hlast

/-- Witness for C20: on the grid of the sample engine the bear shows at column 10
of row 10, the werewolf at column 11 of row 11, and the cell of the dead rogue
shows a dot. -/
theorem render_grid_witness :
    cellAt (buildMap sampleEngine) 10 10 = some 'B' ∧
    cellAt (buildMap sampleEngine) 11 11 = some 'W' ∧
    cellAt (buildMap sampleEngine) 50 50 = some '.' :=
  have h := (render_grid sampleEngine).2.2.1
  ⟨(h 10 10 (by decide) (by decide)).trans (by decide),
    (h 11 11 (by decide) (by decide)).trans (by decide),
    (h 50 50 (by decide) (by decide)).trans (by decide)⟩

end Render

/-! ## At most one death per task -/

section OneDeath

open GameEngine

theorem processCombat_of_dead (canKill : KillRule) (g : GameEngine) (a d : Nat)
    (h : ¬ ((g.heap a).alive = true ∧ (g.heap d).alive = true)) :
    processCombat canKill g a d = g := by
  unfold processCombat
  simp only [NPC.isAlive]
  rw [if_pos]
  by_cases h1 : (g.heap a).alive = true
  · have h2 : (g.heap d).alive = false := by
      cases hd : (g.heap d).alive
      · rfl
      · exact absurd ⟨h1, hd⟩ h
    simp [h2]
  · simp [h1]

theorem processCombat_cout (canKill : KillRule) (g : GameEngine) (a d : Nat)
    (ha : (g.heap a).alive = true) (hd : (g.heap d).alive = true)
    (akd dka : Bool) (mid : Mt19937)
    (hakd : akd = (canKill (g.heap a).type (g.heap d).type &&
      ((g.heap a).tryKill (g.heap d) g.randomEngine).1))
    (hmid : mid = if canKill (g.heap a).type (g.heap d).type = true
      then ((g.heap a).tryKill (g.heap d) g.randomEngine).2 else g.randomEngine)
    (hdka : dka = (canKill (g.heap d).type (g.heap a).type &&
      ((g.heap d).tryKill (g.heap a) mid).1)) :
    (processCombat canKill g a d).cout =
      if (akd && dka) = true then
        g.cout ++ ["MUTUAL KILL: " ++ (g.heap a).name ++ " and " ++ (g.heap d).name ++
          " killed each other!"]
      else if akd = true then g.cout ++ [(g.heap a).name ++ " killed " ++ (g.heap d).name]
      else if dka = true then g.cout ++ [(g.heap d).name ++ " killed " ++ (g.heap a).name]
      else g.cout := by
  subst hdka hmid hakd
  unfold processCombat
  simp only [NPC.isAlive, NPC.getType, NPC.getName, ha, hd, Bool.not_true, Bool.or_self,
    Bool.false_eq_true, if_false]
  by_cases h1 : canKill (g.heap a).type (g.heap d).type = true <;>
  by_cases h2 : canKill (g.heap d).type (g.heap a).type = true <;>
  simp only [h1, h2, if_true, if_false, Bool.true_and, Bool.false_and, Bool.and_false,
    Bool.false_eq_true] <;>
  split_ifs <;> rfl

theorem kill_line_ne_mutual (a d : String) :
    a ++ " killed " ++ d ≠ "MUTUAL KILL: " ++ a ++ " and " ++ d ++ " killed each other!" ∧
    d ++ " killed " ++ a ≠ "MUTUAL KILL: " ++ a ++ " and " ++ d ++ " killed each other!" := by
  have h1 : " killed ".length = 8 := by decide
  have h2 : "MUTUAL KILL: ".length = 13 := by decide
  have h3 : " and ".length = 5 := by decide
  have h4 : " killed each other!".length = 19 := by decide
  constructor <;>
  · intro h
    have hl := congrArg String.length h
    simp only [String.length_append] at hl
    rw [h1, h2, h3, h4] at hl
    omega

theorem engineKillRule_asymmetric (a b : NPCType) :
    ¬ (engineKillRule a b = true ∧ engineKillRule b a = true) := by
  cases a <;> cases b <;> decide

/-- C21. At most one death per task: the engine's kill rule never permits both
directions for a pair of kinds; and for every kill rule with that property,
every `processCombat(attacker, defender)` and every state of the generator (every
outcome of the rolls): at most one entity changes, it is a participant that was
alive and is now dead, and the two participants do not both die; the participant
whose kind can kill the other's is left as it was; two entities of the same kind
leave the whole state unchanged; and the mutual-kill branch is never taken: the
console receives nothing or one single-kill line, never the mutual-kill line. -/
theorem at_most_one_death :
    (∀ a b : NPCType, ¬ (engineKillRule a b = true ∧ engineKillRule b a = true)) ∧
    (∀ canKill : KillRule,
      (∀ a b : NPCType, ¬ (canKill a b = true ∧ canKill b a = true)) →
      ∀ (g : GameEngine) (attacker defender : Nat),
        (∀ e1 e2 : Nat, (processCombat canKill g attacker defender).heap e1 ≠ g.heap e1 →
          (processCombat canKill g attacker defender).heap e2 ≠ g.heap e2 → e1 = e2) ∧
        (∀ e : Nat, (processCombat canKill g attacker defender).heap e ≠ g.heap e →
          (e = attacker ∨ e = defender) ∧ (g.heap e).isAlive = true ∧
            ((processCombat canKill g attacker defender).heap e).isAlive = false) ∧
        ¬ ((g.heap attacker).isAlive = true ∧ (g.heap defender).isAlive = true ∧
          ((processCombat canKill g attacker defender).heap attacker).isAlive = false ∧
          ((processCombat canKill g attacker defender).heap defender).isAlive = false) ∧
        (canKill (g.heap attacker).getType (g.heap defender).getType = true →
          (processCombat canKill g attacker defender).heap attacker = g.heap attacker) ∧
        (canKill (g.heap defender).getType (g.heap attacker).getType = true →
          (processCombat canKill g attacker defender).heap defender = g.heap defender) ∧
        ((g.heap attacker).getType = (g.heap defender).getType →
          processCombat canKill g attacker defender = g) ∧
        ((processCombat canKill g attacker defender).cout = g.cout ∨
          (processCombat canKill g attacker defender).cout =
            g.cout ++ [(g.heap attacker).getName ++ " killed " ++ (g.heap defender).getName] ∨
          (processCombat canKill g attacker defender).cout =
            g.cout ++ [(g.heap defender).getName ++ " killed " ++ (g.heap attacker).getName]) ∧
        (processCombat canKill g attacker defender).cout ≠
          g.cout ++ ["MUTUAL KILL: " ++ (g.heap attacker).getName ++ " and " ++
            (g.heap defender).getName ++ " killed each other!"]) := by
  refine ⟨engineKillRule_asymmetric, ?_⟩
  intro canKill hasym g attacker defender
  simp only [NPC.isAlive, NPC.getType, NPC.getName]
  by_cases hal : (g.heap attacker).alive = true ∧ (g.heap defender).alive = true
  · obtain ⟨ha, hd⟩ := hal
    obtain ⟨A, hA⟩ : ∃ A : Bool, A = (canKill (g.heap attacker).type (g.heap defender).type &&
        ((g.heap attacker).tryKill (g.heap defender) g.randomEngine).1) := ⟨_, rfl⟩
    obtain ⟨mid, hmid⟩ : ∃ mid : Mt19937,
        mid = if canKill (g.heap attacker).type (g.heap defender).type = true
          then ((g.heap attacker).tryKill (g.heap defender) g.randomEngine).2
          else g.randomEngine := ⟨_, rfl⟩
    obtain ⟨D, hD⟩ : ∃ D : Bool, D = (canKill (g.heap defender).type (g.heap attacker).type &&
        ((g.heap defender).tryKill (g.heap attacker) mid).1) := ⟨_, rfl⟩
    obtain ⟨hheap, -⟩ := processCombat_live canKill g attacker defender ha hd A D mid hA hmid hD
    have hcout := processCombat_cout canKill g attacker defender ha hd A D mid hA hmid hD
    have hA1 : A = true → canKill (g.heap attacker).type (g.heap defender).type = true := by
      intro h
      rw [hA, Bool.and_eq_true] at h
      exact h.1
    have hD1 : D = true → canKill (g.heap defender).type (g.heap attacker).type = true := by
      intro h
      rw [hD, Bool.and_eq_true] at h
      exact h.1
    have hAD : ¬ (A = true ∧ D = true) := fun h => hasym _ _ ⟨hA1 h.1, hD1 h.2⟩
    have hAeq : A = true → attacker ≠ defender := by
      intro h heq
      have := hA1 h
      rw [heq] at this
      exact hasym _ _ ⟨this, this⟩
    have hDeq : D = true → attacker ≠ defender := by
      intro h heq
      have := hD1 h
      rw [heq] at this
      exact hasym _ _ ⟨this, this⟩
    have hchanged : ∀ e : Nat, (processCombat canKill g attacker defender).heap e ≠ g.heap e →
        (e = defender ∧ A = true) ∨ (e = attacker ∧ D = true) := by
      intro e he
      rw [hheap] at he
      by_contra hcond
      rw [if_neg hcond] at he
      exact he rfl
    have hkills := kill_line_ne_mutual (g.heap attacker).name (g.heap defender).name
    refine ⟨?_, ?_, ?_, ?_, ?_, ?_, ?_, ?_⟩
    · intro e1 e2 h1 h2
      rcases hchanged e1 h1 with ⟨h1e, h1A⟩ | ⟨h1e, h1D⟩ <;>
        rcases hchanged e2 h2 with ⟨h2e, h2A⟩ | ⟨h2e, h2D⟩
      · rw [h1e, h2e]
      · exact absurd ⟨h1A, h2D⟩ hAD
      · exact absurd ⟨h2A, h1D⟩ hAD
      · rw [h1e, h2e]
    · intro e he
      have hcond := hchanged e he
      rw [hheap, if_pos hcond]
      rcases hcond with ⟨h1e, -⟩ | ⟨h1e, -⟩
      · exact ⟨Or.inr h1e, by rw [h1e]; exact hd, rfl⟩
      · exact ⟨Or.inl h1e, by rw [h1e]; exact ha, rfl⟩
    · rintro ⟨-, -, h1, h2⟩
      have ca : (processCombat canKill g attacker defender).heap attacker ≠ g.heap attacker := by
        intro h
        rw [h, ha] at h1
        cases h1
      have cd : (processCombat canKill g attacker defender).heap defender ≠ g.heap defender := by
        intro h
        rw [h, hd] at h2
        cases h2
      rcases hchanged attacker ca with ⟨hae, hAt⟩ | ⟨-, hDt⟩
      · exact hAeq hAt hae
      · rcases hchanged defender cd with ⟨-, hAt⟩ | ⟨hde, -⟩
        · exact hAD ⟨hAt, hDt⟩
        · exact hDeq hDt hde.symm
    · intro hck
      rw [hheap, if_neg]
      rintro (⟨hae, hAt⟩ | ⟨-, hDt⟩)
      · exact hAeq hAt hae
      · exact hasym _ _ ⟨hck, hD1 hDt⟩
    · intro hck
      rw [hheap, if_neg]
      rintro (⟨-, hAt⟩ | ⟨hde, hDt⟩)
      · exact hasym _ _ ⟨hA1 hAt, hck⟩
      · exact hDeq hDt hde.symm
    · intro hty
      have hck1 : canKill (g.heap attacker).type (g.heap defender).type = false := by
        cases hc : canKill (g.heap attacker).type (g.heap defender).type
        · rfl
        · exfalso
          have hc2 := hc
          rw [hty] at hc2
          exact hasym _ _ ⟨hc2, hc2⟩
      have hck2 : canKill (g.heap defender).type (g.heap attacker).type = false := by
        rw [← hty]
        rw [← hty] at hck1
        exact hck1
      unfold processCombat
      simp [NPC.isAlive, NPC.getType, ha, hd, hck1, hck2]
    · rw [hcout]
      cases A <;> cases D
      · left; rfl
      · right; right; rfl
      · right; left; rfl
      · exact absurd ⟨rfl, rfl⟩ hAD
    · rw [hcout]
      cases A <;> cases D
      · simp
      · simp only [Bool.false_and, Bool.false_eq_true, if_false, if_true]
        intro h
        exact hkills.2 (List.cons.inj (List.append_cancel_left h)).1
      · simp only [Bool.true_and, Bool.false_eq_true, if_false, if_true, Bool.and_false]
        intro h
        exact hkills.1 (List.cons.inj (List.append_cancel_left h)).1
      · exact absurd ⟨rfl, rfl⟩ hAD
  · have hg := processCombat_of_dead canKill g attacker defender hal
    rw [hg]
    refine ⟨?_, ?_, ?_, ?_, ?_, ?_, ?_, ?_⟩
    · intro e1 e2 h1
      exact absurd rfl h1
    · intro e he
      exact absurd rfl he
    · rintro ⟨h1, h2, -, -⟩
      exact hal ⟨h1, h2⟩
    · intro _; rfl
    · intro _; rfl
    · intro _; rfl
    · left; rfl
    · simp


/-- Witness for C21: with the engine's kill rule the bear of the sample engine
attacks the werewolf and rolls 6 against 1: the werewolf dies, the bear, whose
kind can kill a werewolf, is left as it was, and the console gets the single-kill
line. -/
theorem at_most_one_death_witness :
    (processCombat engineKillRule sampleEngine 0 1).heap 0 = sampleEngine.heap 0 ∧
    ((processCombat engineKillRule sampleEngine 0 1).heap 1).isAlive = false ∧
    (processCombat engineKillRule sampleEngine 0 1).cout = ["bear killed wolf"] ∧
    (processCombat engineKillRule sampleEngine 0 1).cout ≠
      sampleEngine.cout ++ ["MUTUAL KILL: " ++ (sampleEngine.heap 0).getName ++ " and " ++
        (sampleEngine.heap 1).getName ++ " killed each other!"] :=
  have h := at_most_one_death.2 engineKillRule at_most_one_death.1 sampleEngine 0 1
  ⟨h.2.2.2.1 (by decide), by decide, by decide, h.2.2.2.2.2.2.2⟩

end OneDeath

end DungeonSim
